import Mathlib

set_option maxHeartbeats 1000000

/-! Shallow embedding of the bloom-filters repository slice under
verification: the cuckoo filter (`src/unnamed/part_002`) and the scalable
bloom filter (`src/src/bloom/scalable-bloom-filter.mts`), together with the
pieces of their environment (buckets, utils, hashing, the partitioned
bloom filter) that those sources call but that are not part of the
provided source slice; the latter are modelled from the spec and marked as
such. Elements and fingerprints are strings, as in the source, and the
seeded 64-bit `xxh64` hash is abstracted as a function `hash : String → ℕ`
passed to every operation (the source fixes it per filter via the seed). -/

/-- Errors thrown by the filter operations: `InvalidArgument` from
`_locations` when the fingerprint is longer than the hash bit-string, and
`FilterFull` from `add` with `throwError = true`. -/
inductive CuckooError where
  | invalidArgument
  | filterFull
deriving DecidableEq, Repr

/-- Modelled from the spec: `Bucket` (the file `bucket.js` is imported by
the cuckoo source but is not part of the provided source slice) — a
fixed-capacity ordered sequence of up to `_size` fingerprints. -/
structure Bucket where
  _elements : List String
  _size : ℕ
deriving DecidableEq, Repr, Inhabited

/-- Number of fingerprints currently stored in the bucket. -/
def Bucket.length (b : Bucket) : ℕ := b._elements.length

/-- Modelled from the spec: a bucket is free iff `length < bucketSize`. -/
def Bucket.isFree (b : Bucket) : Bool := b.length < b._size

/-- Modelled from the spec: `at` (position-preserving read; `at` is a Lean
keyword, hence the name `atIndex`). Out-of-range reads, which the source
never performs on the paths modelled here, return `""`. -/
def Bucket.atIndex (b : Bucket) (i : ℕ) : String := b._elements.getD i ""

/-- Modelled from the spec: position-preserving write of slot `i`. -/
def Bucket.set (b : Bucket) (i : ℕ) (v : String) : Bucket :=
  { b with _elements := b._elements.set i v }

/-- Modelled from the spec: append the fingerprint when the bucket is
free, otherwise leave the bucket unchanged. -/
def Bucket.add (b : Bucket) (v : String) : Bucket :=
  if b.isFree then { b with _elements := b._elements ++ [v] } else b

/-- Modelled from the spec: membership of a fingerprint. -/
def Bucket.has (b : Bucket) (v : String) : Bool := b._elements.contains v

/-- Modelled from the spec: remove the first matching fingerprint. -/
def Bucket.remove (b : Bucket) (v : String) : Bucket :=
  { b with _elements := b._elements.erase v }

/-- Modelled from the spec: bucket equality is length-and-content
equality, order-insensitive. -/
def Bucket.equals (b c : Bucket) : Bool := b._elements.isPerm c._elements

/-- Modelled from the spec §4.3 (`utils.js` is not part of the provided
source slice): the integer in `[lo, hi]` derived from one PRNG draw as
`lo + floor(u · (hi − lo + 1))`; the draw is abstracted by an arbitrary
natural `r`, reduced as `r % (hi − lo + 1)` so that every outcome in range
is reachable. -/
def randomInt (lo hi r : ℕ) : ℕ := lo + r % (hi - lo + 1)

/-- Modelled from the spec (`utils.js` is not part of the provided source
slice): the filter size is "rounded up to the nearest power of two". -/
def getNearestPow2 (n : ℕ) : ℕ := 2 ^ Nat.clog 2 n

/-- Modelled from the spec: the library-wide default seed constant. Its
concrete value is irrelevant to every claim verified here. -/
def defaultSeed : ℕ := 0x1234567890

/-- One binary digit as the character the source's `toString(2)` emits. -/
def bitChar (b : Bool) : Char := if b then '1' else '0'

/-- The last `len` characters of the zero-padded binary representation of
`h`: the bits `len − 1 … 0` of `h`, most significant first. This is the
source's `hashstr.substring(hashstr.length - fingerprintLength)` whenever
that substring is taken (i.e. whenever `len ≤ hashstr.length`). -/
def bitString (h len : ℕ) : String :=
  String.mk ((List.range len).reverse.map fun i => bitChar (h.testBit i))

/-- Helper for `binLength`, structurally recursive on a fuel argument so
that the kernel can evaluate it. -/
def binLengthAux : ℕ → ℕ → ℕ
  | 0, _ => 1
  | fuel + 1, h => if h ≤ 1 then 1 else binLengthAux fuel (h / 2) + 1

/-- The length of `h.toString(2)`: the number of binary digits of `h`,
with `binLength 0 = 1` (JavaScript renders `0` as `"0"`). -/
def binLength (h : ℕ) : ℕ := binLengthAux h h

/-- The fingerprint and the two bucket indices computed by
`CuckooFilter._locations`. -/
structure CuckooLocations where
  fingerprint : String
  firstIndex : ℕ
  secondIndex : ℕ
deriving DecidableEq, Repr

/-- The cuckoo filter state: an array of `_size` buckets plus the sizing
attributes and the element counter, from `src/unnamed/part_002`. The
counter `_length` is an integer, as in JavaScript (no clamping at 0). -/
structure CuckooFilter where
  _filter : List Bucket
  _size : ℕ
  _bucketSize : ℕ
  _fingerprintLength : ℕ
  _length : ℤ
  _maxKicks : ℕ
  _seed : ℕ
deriving DecidableEq, Repr

/-- The bucket stored at index `i` (the default is never hit on the
in-range paths the source exercises; the default bucket has capacity 0 and
so is never free, matching the guard structure of the source). -/
def bucketAt (l : List Bucket) (i : ℕ) : Bucket := l.getD i default

/-- Write fingerprint `v` into slot `j` of bucket `i`:
`this._filter[index].set(rndIndex, fingerprint)` in the source. -/
def setSlot (l : List Bucket) (i j : ℕ) (v : String) : List Bucket :=
  l.set i ((bucketAt l i).set j v)

/-- The cuckoo constructor (`constructor(size, fingerprintSize,
bucketSize, maxKicks = 500)`): the bucket count is the nearest power of
two of `size`, truncated to an unsigned 32-bit value
(`Number(BigInt.asUintN(32, getNearestPow2(BigInt(size))))`). -/
def CuckooFilter.construct (size fingerprintLength bucketSize : ℕ)
    (maxKicks : ℕ := 500) : CuckooFilter :=
  let s := getNearestPow2 size % 2 ^ 32
  { _filter := List.replicate s { _elements := [], _size := bucketSize }
    _size := s
    _bucketSize := bucketSize
    _fingerprintLength := fingerprintLength
    _length := 0
    _maxKicks := maxKicks
    _seed := defaultSeed }

/-- `CuckooFilter._locations`: hash the element, render the hash as a
binary string padded to 64 characters (`toString(2).padStart(64, '0')`,
whose length is `max 64 (binLength h)`), fail with `InvalidArgument` when
the fingerprint length exceeds that string's length, and otherwise return
the low `_fingerprintLength` bits as the fingerprint together with
`firstIndex = asUintN32(h) % _size` and
`secondIndex = asUintN32(h xor hash(fingerprint)) % _size`. -/
def CuckooFilter._locations (hash : String → ℕ) (f : CuckooFilter)
    (element : String) : Except CuckooError CuckooLocations :=
  let h := hash element
  let hashstrLength := max 64 (binLength h)
  if hashstrLength < f._fingerprintLength then .error .invalidArgument
  else
    let fingerprint := bitString h f._fingerprintLength
    .ok { fingerprint := fingerprint
          firstIndex := h % 2 ^ 32 % f._size
          secondIndex := (h ^^^ hash fingerprint) % 2 ^ 32 % f._size }

/-- Result of the eviction loop inside `CuckooFilter.add`: either the
updated bucket array after a successful insertion, or the bucket array
after `maxKicks` kicks together with the undo log (most recent entry
first, as popping a JavaScript array yields them). -/
inductive KickResult where
  | success (filter : List Bucket)
  | failure (filter : List Bucket) (logs : List (ℕ × ℕ × String))
deriving Repr

/-- The eviction loop of `CuckooFilter.add` (`for (let nbTry = 0; nbTry <
this._maxKicks; nbTry++) …`), structurally recursive on the remaining
number of kicks. Each iteration draws a slot index via `randomInt`
(parametrised by `slots nbTry`), logs the displaced fingerprint, writes
the in-hand fingerprint into the slot, recomputes the index as
`asUintN32(index xor hash(tmp)) % size`, and either inserts into a free
bucket (success) or continues with the displaced fingerprint in hand. -/
def kickLoop (hash : String → ℕ) (size : ℕ) (slots : ℕ → ℕ) :
    ℕ → ℕ → List Bucket → String → ℕ → List (ℕ × ℕ × String) → KickResult
  | 0, _, filter, _, _, logs => .failure filter logs
  | fuel + 1, nbTry, filter, fingerprint, index, logs =>
    let bucket := bucketAt filter index
    let rndIndex := randomInt 0 (bucket.length - 1) (slots nbTry)
    let tmp := bucket.atIndex rndIndex
    let filter1 := setSlot filter index rndIndex fingerprint
    let index1 := (index ^^^ hash tmp) % 2 ^ 32 % size
    if (bucketAt filter1 index1).isFree then
      .success (filter1.set index1 ((bucketAt filter1 index1).add tmp))
    else
      kickLoop hash size slots fuel (nbTry + 1) filter1 tmp index1
        ((index, rndIndex, tmp) :: logs)

/-- The rollback of `CuckooFilter.add`: pop the undo log (most recent
entry first) and restore every written slot to its previous value. -/
def rollback : List Bucket → List (ℕ × ℕ × String) → List Bucket
  | filter, [] => filter
  | filter, (i, j, v) :: rest => rollback (setSlot filter i j v) rest

/-- `CuckooFilter.add(element, throwError = false, destructive = false)`.
The PRNG draws of the source are abstracted: `coin` is the outcome of
`this.random() < 0.5` choosing the starting bucket, and `slots nbTry`
parametrises the slot drawn at kick number `nbTry`. Returns the result
(`ok true` on success, `ok false` when the filter is considered full and
`throwError` is unset, the thrown error otherwise) together with the
filter state after the call. -/
def CuckooFilter.add (hash : String → ℕ) (f : CuckooFilter) (element : String)
    (coin : Bool) (slots : ℕ → ℕ) (throwOnFull destructive : Bool) :
    Except CuckooError Bool × CuckooFilter :=
  match f._locations hash element with
  | .error e => (.error e, f)
  | .ok loc =>
    if (bucketAt f._filter loc.firstIndex).isFree then
      (.ok true, { f with
        _filter := f._filter.set loc.firstIndex
          ((bucketAt f._filter loc.firstIndex).add loc.fingerprint)
        _length := f._length + 1 })
    else if (bucketAt f._filter loc.secondIndex).isFree then
      (.ok true, { f with
        _filter := f._filter.set loc.secondIndex
          ((bucketAt f._filter loc.secondIndex).add loc.fingerprint)
        _length := f._length + 1 })
    else
      let index0 := if coin then loc.firstIndex else loc.secondIndex
      match kickLoop hash f._size slots f._maxKicks 0 f._filter
          loc.fingerprint index0 [] with
      | .success filter1 =>
        (.ok true, { f with _filter := filter1, _length := f._length + 1 })
      | .failure filter1 logs =>
        let filter2 := if destructive then filter1 else rollback filter1 logs
        if throwOnFull then (.error .filterFull, { f with _filter := filter2 })
        else (.ok false, { f with _filter := filter2 })

/-- `CuckooFilter.remove(element)`: try the first bucket, then the second;
remove the first matching fingerprint and decrement `_length`; return
`false` leaving the filter unchanged when neither bucket contains the
fingerprint. -/
def CuckooFilter.remove (hash : String → ℕ) (f : CuckooFilter)
    (element : String) : Except CuckooError Bool × CuckooFilter :=
  match f._locations hash element with
  | .error e => (.error e, f)
  | .ok loc =>
    if (bucketAt f._filter loc.firstIndex).has loc.fingerprint then
      (.ok true, { f with
        _filter := f._filter.set loc.firstIndex
          ((bucketAt f._filter loc.firstIndex).remove loc.fingerprint)
        _length := f._length - 1 })
    else if (bucketAt f._filter loc.secondIndex).has loc.fingerprint then
      (.ok true, { f with
        _filter := f._filter.set loc.secondIndex
          ((bucketAt f._filter loc.secondIndex).remove loc.fingerprint)
        _length := f._length - 1 })
    else (.ok false, f)

/-- `CuckooFilter.has(element)`: true iff one of the two buckets contains
the fingerprint. -/
def CuckooFilter.has (hash : String → ℕ) (f : CuckooFilter)
    (element : String) : Except CuckooError Bool :=
  match f._locations hash element with
  | .error e => .error e
  | .ok loc =>
    .ok ((bucketAt f._filter loc.firstIndex).has loc.fingerprint ||
      (bucketAt f._filter loc.secondIndex).has loc.fingerprint)

/-- `CuckooFilter.equals(filter)`: walk the indices of this filter's
bucket array and compare bucket contents only
(`filter._filter[i].equals(bucket)`); no other attribute is consulted. -/
def CuckooFilter.equals (f g : CuckooFilter) : Bool :=
  (List.range f._filter.length).all fun i =>
    Bucket.equals (bucketAt g._filter i) (bucketAt f._filter i)

/-- `computeFingerpintLength(size, rate)` (sic, source spelling): the
source computes `Math.ceil(Math.log2(1/rate) + Math.log2(2*size))`; over
exact reals this equals `⌈log₂(2·size/rate)⌉ = Int.clog 2 (2·size/rate)`
(proved as `computeFingerpintLength_eq_ceil` below against the literal
formula `specFingerprintLength`). -/
def computeFingerpintLength (size : ℕ) (rate : ℚ) : ℤ :=
  Int.clog 2 (2 * (size : ℚ) / rate)

/-- The fingerprint-length formula exactly as the source writes it,
`⌈log₂(1/rate) + log₂(2·size)⌉`, over exact reals (the source uses IEEE
doubles; the claims at stake are robust to that difference). -/
noncomputable def specFingerprintLength (size : ℕ) (rate : ℚ) : ℤ :=
  ⌈Real.logb 2 (1 / (rate : ℝ)) + Real.logb 2 (2 * (size : ℝ))⌉

/-- The capacity computed by `CuckooFilter.create`:
`Math.ceil(Math.max(size, 32) / bucketSize / 0.955)`, with `0.955` read as
the exact rational `191/200`. -/
def capacityOf (size bucketSize : ℕ) : ℕ :=
  (⌈(max size 32 : ℚ) / (bucketSize : ℚ) / (191 / 200 : ℚ)⌉).toNat

/-- `CuckooFilter.create(size, errorRate, bucketSize = 4, maxKicks =
500)`: fingerprint length from `computeFingerpintLength(bucketSize,
errorRate)`, capacity from `capacityOf`, then the constructor. -/
def CuckooFilter.create (size : ℕ) (errorRate : ℚ) (bucketSize : ℕ := 4)
    (maxKicks : ℕ := 500) : CuckooFilter :=
  CuckooFilter.construct (capacityOf size bucketSize)
    (computeFingerpintLength bucketSize errorRate).toNat bucketSize maxKicks

/-- The exact value of the JavaScript double `Math.LN2` as written in
decimal (`0.6931471805599453`), used by the scalable filter's growth
formula. -/
def LN2 : ℚ := 6931471805599453 / 10 ^ 16

/-- Modelled from the spec: the partitioned bloom filter (its source file
is not part of the provided slice; only its creation parameters, its seed
and its abstract stored content matter to the claims). `_size`, `_error`
and `_ratio` record the arguments `PartitionBloomFilter.create` was called
with; `_data` is the abstract list of elements inserted so far. -/
structure PartitionBloomFilter where
  _size : ℚ
  _error : ℚ
  _ratio : ℚ
  _seed : ℕ
  _data : List String
deriving DecidableEq, Repr

instance : Inhabited PartitionBloomFilter := ⟨⟨0, 0, 0, 0, []⟩⟩

/-- Modelled from the spec: `PartitionBloomFilter.create(size, errorRate,
ratio)` records its creation parameters; the fresh filter holds no data
and carries the default seed. -/
def PartitionBloomFilter.create (size error ratio : ℚ) : PartitionBloomFilter :=
  { _size := size, _error := error, _ratio := ratio
    _seed := defaultSeed, _data := [] }

/-- Modelled from the spec: the base-filter seed setter replaces the seed
and does not rehash or otherwise touch the stored data. -/
def PartitionBloomFilter.setSeed (f : PartitionBloomFilter) (s : ℕ) :
    PartitionBloomFilter := { f with _seed := s }

/-- Modelled from the spec: inserting an element into a partitioned filter
only adds it to the stored content. -/
def PartitionBloomFilter.insert (f : PartitionBloomFilter) (e : String) :
    PartitionBloomFilter := { f with _data := f._data ++ [e] }

/-- The scalable bloom filter state from
`src/src/bloom/scalable-bloom-filter.mts`: the construction parameters,
the seed, the PRNG (represented by the seed value it was last seeded from,
`seedrandom(this._seed.toString())`), and the list of inner partitioned
filters. -/
structure ScalableBloomFilter where
  _initial_size : ℚ
  _error_rate : ℚ
  _ratio : ℚ
  _seed : ℕ
  _rng : ℕ
  _filters : List PartitionBloomFilter
deriving DecidableEq, Repr

/-- The scalable constructor: record the parameters and push one
partitioned filter built with `(initial_size, error_rate, ratio)`, then
assign it the current (default) seed. -/
def ScalableBloomFilter.create (initialSize errorRate ratio : ℚ) :
    ScalableBloomFilter :=
  { _initial_size := initialSize
    _error_rate := errorRate
    _ratio := ratio
    _seed := defaultSeed
    _rng := defaultSeed
    _filters := [(PartitionBloomFilter.create initialSize errorRate
      ratio).setSeed defaultSeed] }

/-- The scalable seed setter: store the seed, reseed the PRNG from it
(`seedrandom(this._seed.toString())`), and propagate the seed to every
inner filter. -/
def ScalableBloomFilter.setSeed (f : ScalableBloomFilter) (s : ℕ) :
    ScalableBloomFilter :=
  { f with _seed := s, _rng := s
           _filters := f._filters.map fun pf => pf.setSeed s }

/-- `ScalableBloomFilter.add(element)`. The growth test
`currentFilter._currentload() > currentFilter._loadFactor` depends on
partitioned-filter internals outside the provided slice, so its outcome is
abstracted as the oracle `growNow` (claims quantify over all outcomes).
When growing, a new partitioned filter is created with size
`initial_size · s^(len+1) · LN2` and error rate `error_rate · ratio^len`
(`len` the current filter count), receives the current seed, and is pushed;
the element is then inserted into the last filter. -/
def ScalableBloomFilter.add (f : ScalableBloomFilter) (element : String)
    (growNow : Bool) : ScalableBloomFilter :=
  let fs :=
    if growNow then
      f._filters ++ [(PartitionBloomFilter.create
        (f._initial_size * 2 ^ (f._filters.length + 1) * LN2)
        (f._error_rate * f._ratio ^ f._filters.length)
        f._ratio).setSeed f._seed]
    else f._filters
  { f with _filters :=
      fs.set (fs.length - 1) ((fs.getD (fs.length - 1) default).insert element) }

/-- A sequence of `add` calls with their growth-oracle outcomes. -/
def ScalableBloomFilter.applyAdds (f : ScalableBloomFilter) :
    List (String × Bool) → ScalableBloomFilter
  | [] => f
  | (e, g) :: rest => (f.add e g).applyAdds rest

/-- One `CuckooFilter.add` call with `destructive = false`, with its
abstracted PRNG outcomes. -/
structure AddCall where
  element : String
  coin : Bool
  slots : ℕ → ℕ
  throwOnFull : Bool

/-- Apply a sequence of non-destructive `add` calls to a cuckoo filter,
keeping only the resulting states. -/
def CuckooFilter.applyAdds (hash : String → ℕ) (f : CuckooFilter) :
    List AddCall → CuckooFilter
  | [] => f
  | c :: rest =>
    CuckooFilter.applyAdds hash
      (CuckooFilter.add hash f c.element c.coin c.slots c.throwOnFull false).2 rest

/-- Total number of fingerprints stored across all buckets, as
`_computeHashTableLoad` sums them
(`this._filter.reduce((acc, val) => acc + val.length, 0)`). -/
def sumLen (l : List Bucket) : ℕ := (l.map Bucket.length).sum

/-- Every bucket has capacity `bs` and holds at most `bs` fingerprints. -/
def BucketsOk (bs : ℕ) (l : List Bucket) : Prop :=
  ∀ b ∈ l, b._size = bs ∧ b._elements.length ≤ bs

/-- Well-formedness of a cuckoo filter state: the bucket array has
`_size` entries, sizes are positive, and every bucket is a well-formed
bucket of capacity `_bucketSize`. The constructor establishes this
whenever its rounded size is nonzero. -/
def CuckooFilter.Wf (f : CuckooFilter) : Prop :=
  f._filter.length = f._size ∧ 0 < f._size ∧ 0 < f._bucketSize ∧
    BucketsOk f._bucketSize f._filter

/-- The fingerprint `fp` is stored in bucket `i` or bucket `j`. -/
def pairMem (l : List Bucket) (fp : String) (i j : ℕ) : Prop :=
  fp ∈ (bucketAt l i)._elements ∨ fp ∈ (bucketAt l j)._elements

/-- The `_size` value claim C5 asserts: the capacity rounded up to the
next power of two, with no 32-bit truncation. -/
def specCuckooSize (size bucketSize : ℕ) : ℕ :=
  getNearestPow2 (capacityOf size bucketSize)

/-- The creation-parameter invariant of the scalable filter's inner list:
the construction parameters are stored unchanged, the inner filter at
position 0 was created with `(init, err, ratio)`, and the inner filter at
every later position `j` was created with size `init · 2^(j+1) · LN2`,
error rate `err · ratio^j` and ratio `ratio`. -/
def ScalableInv (init err ratio : ℚ) (f : ScalableBloomFilter) : Prop :=
  f._initial_size = init ∧ f._error_rate = err ∧ f._ratio = ratio ∧
  0 < f._filters.length ∧
  (f._filters.getD 0 default)._size = init ∧
  (f._filters.getD 0 default)._error = err ∧
  (∀ j, 1 ≤ j → j < f._filters.length →
    (f._filters.getD j default)._size = init * 2 ^ (j + 1) * LN2 ∧
    (f._filters.getD j default)._error = err * ratio ^ j) ∧
  (∀ j < f._filters.length, (f._filters.getD j default)._ratio = ratio)

instance (bs : ℕ) (l : List Bucket) : Decidable (BucketsOk bs l) :=
  inferInstanceAs
    (Decidable (∀ b ∈ l, b._size = bs ∧ b._elements.length ≤ bs))

instance {ε α : Type} [DecidableEq ε] [DecidableEq α] :
    DecidableEq (Except ε α)
  | .error x, .error y =>
    if h : x = y then .isTrue (by rw [h])
    else .isFalse (by intro hc; cases hc; exact h rfl)
  | .error _, .ok _ => .isFalse (by intro hc; cases hc)
  | .ok _, .error _ => .isFalse (by intro hc; cases hc)
  | .ok x, .ok y =>
    if h : x = y then .isTrue (by rw [h])
    else .isFalse (by intro hc; cases hc; exact h rfl)

theorem list_set_getD_self {α : Type} (l : List α) (i : ℕ) (d : α) :
    l.set i (l.getD i d) = l := by
  by_cases h : i < l.length
  · apply List.ext_getElem?
    intro n
    by_cases hn : i = n
    · subst hn
      rw [List.getElem?_set_self h, List.getD_eq_getElem l d h,
        List.getElem?_eq_getElem h]
    · exact List.getElem?_set_ne hn
  · exact List.set_eq_of_length_le (Nat.le_of_not_lt h)

theorem Bucket.set_atIndex_self (b : Bucket) (j : ℕ) :
    b.set j (b.atIndex j) = b := by
  cases b
  simp only [Bucket.set, Bucket.atIndex, list_set_getD_self]

theorem setSlot_atIndex_self (l : List Bucket) (i j : ℕ) :
    setSlot l i j ((bucketAt l i).atIndex j) = l := by
  unfold setSlot
  rw [Bucket.set_atIndex_self]
  exact list_set_getD_self l i default

theorem setSlot_setSlot (l : List Bucket) (i j : ℕ) (v w : String) :
    setSlot (setSlot l i j v) i j w = setSlot l i j w := by
  by_cases h : i < l.length
  · unfold setSlot bucketAt
    rw [List.set_set]
    congr 1
    rw [List.getD_eq_getElem?_getD, List.getElem?_set_self h]
    simp only [Option.getD_some, Bucket.set, List.set_set]
  · unfold setSlot bucketAt
    rw [List.set_eq_of_length_le (Nat.le_of_not_lt h),
      List.set_eq_of_length_le (Nat.le_of_not_lt h)]

theorem length_setSlot (l : List Bucket) (i j : ℕ) (v : String) :
    (setSlot l i j v).length = l.length := List.length_set ..

theorem bucketAt_set_self {l : List Bucket} {i : ℕ} (h : i < l.length)
    (b : Bucket) : bucketAt (l.set i b) i = b := by
  unfold bucketAt
  rw [List.getD_eq_getElem?_getD, List.getElem?_set_self h]
  rfl

theorem bucketAt_set_ne {l : List Bucket} {i j : ℕ} (h : i ≠ j)
    (b : Bucket) : bucketAt (l.set i b) j = bucketAt l j := by
  unfold bucketAt
  rw [List.getD_eq_getElem?_getD, List.getD_eq_getElem?_getD,
    List.getElem?_set_ne h]

theorem bucketAt_of_length_le {l : List Bucket} {i : ℕ}
    (h : l.length ≤ i) : bucketAt l i = default := by
  unfold bucketAt
  rw [List.getD_eq_getElem?_getD, List.getElem?_eq_none h]
  rfl

theorem isFree_default : (default : Bucket).isFree = false := rfl

theorem lt_length_of_isFree {l : List Bucket} {i : ℕ}
    (h : (bucketAt l i).isFree = true) : i < l.length := by
  by_contra h'
  rw [bucketAt_of_length_le (Nat.le_of_not_lt h'), isFree_default] at h
  exact Bool.false_ne_true h

theorem sumLen_set (l : List Bucket) (i : ℕ) (b : Bucket)
    (h : b.length = (bucketAt l i).length) :
    sumLen (l.set i b) = sumLen l := by
  induction l generalizing i with
  | nil => rfl
  | cons x xs ih =>
    cases i with
    | zero =>
      have hx : bucketAt (x :: xs) 0 = x := rfl
      rw [hx] at h
      simp only [sumLen, List.set, List.map_cons, List.sum_cons, h]
    | succ n =>
      have hx : bucketAt (x :: xs) (n + 1) = bucketAt xs n := rfl
      rw [hx] at h
      simp only [sumLen, List.set, List.map_cons, List.sum_cons]
      have := ih n h
      simp only [sumLen] at this
      omega

theorem sumLen_set_succ (l : List Bucket) (i : ℕ) (b : Bucket)
    (hi : i < l.length) (h : b.length = (bucketAt l i).length + 1) :
    sumLen (l.set i b) = sumLen l + 1 := by
  induction l generalizing i with
  | nil => exact absurd hi (Nat.not_lt_zero i)
  | cons x xs ih =>
    cases i with
    | zero =>
      have hx : bucketAt (x :: xs) 0 = x := rfl
      rw [hx] at h
      simp only [sumLen, List.set, List.map_cons, List.sum_cons, h]
      omega
    | succ n =>
      have hx : bucketAt (x :: xs) (n + 1) = bucketAt xs n := rfl
      rw [hx] at h
      simp only [sumLen, List.set, List.map_cons, List.sum_cons]
      have := ih n (Nat.lt_of_succ_lt_succ hi) h
      simp only [sumLen] at this
      omega

theorem sumLen_setSlot (l : List Bucket) (i j : ℕ) (v : String) :
    sumLen (setSlot l i j v) = sumLen l := by
  unfold setSlot
  exact sumLen_set l i _ (by simp [Bucket.set, Bucket.length])

theorem sumLen_rollback (logs : List (ℕ × ℕ × String)) (l : List Bucket) :
    sumLen (rollback l logs) = sumLen l := by
  induction logs generalizing l with
  | nil => rfl
  | cons e rest ih =>
    obtain ⟨i, j, v⟩ := e
    rw [rollback, ih, sumLen_setSlot]

theorem Bucket.length_add_of_isFree {b : Bucket} {v : String}
    (h : b.isFree = true) : (b.add v).length = b.length + 1 := by
  simp only [Bucket.add, h, if_true, Bucket.length, List.length_append,
    List.length_cons, List.length_nil]

theorem kickLoop_failure_rollback (hash : String → ℕ) (size : ℕ)
    (slots : ℕ → ℕ) (fuel : ℕ) :
    ∀ (nbTry : ℕ) (filter : List Bucket) (fp : String) (idx : ℕ)
      (logs : List (ℕ × ℕ × String)) (f1 : List Bucket)
      (lg : List (ℕ × ℕ × String)),
      kickLoop hash size slots fuel nbTry filter fp idx logs =
        .failure f1 lg →
      rollback f1 lg = rollback filter logs := by
  induction fuel with
  | zero =>
    intro nbTry filter fp idx logs f1 lg h
    rw [kickLoop] at h
    cases h
    rfl
  | succ n ih =>
    intro nbTry filter fp idx logs f1 lg h
    rw [kickLoop] at h
    split at h
    · cases h
    · have step := ih (nbTry + 1) _ _ _ _ _ _ h
      rw [step, rollback, setSlot_setSlot, setSlot_atIndex_self]

theorem kickLoop_success_sumLen (hash : String → ℕ) (size : ℕ)
    (slots : ℕ → ℕ) (fuel : ℕ) :
    ∀ (nbTry : ℕ) (filter : List Bucket) (fp : String) (idx : ℕ)
      (logs : List (ℕ × ℕ × String)) (f1 : List Bucket),
      kickLoop hash size slots fuel nbTry filter fp idx logs =
        .success f1 →
      sumLen f1 = sumLen filter + 1 := by
  induction fuel with
  | zero =>
    intro nbTry filter fp idx logs f1 h
    rw [kickLoop] at h
    cases h
  | succ n ih =>
    intro nbTry filter fp idx logs f1 h
    rw [kickLoop] at h
    split at h
    · rename_i hfree
      cases h
      rw [sumLen_set_succ _ _ _ (lt_length_of_isFree hfree)
        (Bucket.length_add_of_isFree hfree), sumLen_setSlot]
    · rw [ih (nbTry + 1) _ _ _ _ _ h, sumLen_setSlot]

theorem kickLoop_failure_sumLen (hash : String → ℕ) (size : ℕ)
    (slots : ℕ → ℕ) (fuel : ℕ) :
    ∀ (nbTry : ℕ) (filter : List Bucket) (fp : String) (idx : ℕ)
      (logs : List (ℕ × ℕ × String)) (f1 : List Bucket)
      (lg : List (ℕ × ℕ × String)),
      kickLoop hash size slots fuel nbTry filter fp idx logs =
        .failure f1 lg →
      sumLen f1 = sumLen filter := by
  induction fuel with
  | zero =>
    intro nbTry filter fp idx logs f1 lg h
    rw [kickLoop] at h
    cases h
    rfl
  | succ n ih =>
    intro nbTry filter fp idx logs f1 lg h
    rw [kickLoop] at h
    split at h
    · cases h
    · rw [ih (nbTry + 1) _ _ _ _ _ _ h, sumLen_setSlot]

theorem lt_length_of_has {l : List Bucket} {i : ℕ} {v : String}
    (h : (bucketAt l i).has v = true) : i < l.length := by
  by_contra h'
  rw [bucketAt_of_length_le (Nat.le_of_not_lt h')] at h
  exact Bool.false_ne_true h

theorem sumLen_set_pred (l : List Bucket) (i : ℕ) (b : Bucket)
    (hi : i < l.length) (h : (bucketAt l i).length = b.length + 1) :
    sumLen (l.set i b) + 1 = sumLen l := by
  have h1 : sumLen ((l.set i b).set i (bucketAt l i)) =
      sumLen (l.set i b) + 1 := by
    apply sumLen_set_succ
    · rw [List.length_set]; exact hi
    · rw [bucketAt_set_self hi]; exact h
  rw [List.set_set] at h1
  have h2 : l.set i (bucketAt l i) = l := list_set_getD_self l i default
  rw [h2] at h1
  omega

/-- Claim C1: if `add` with `destructive = false` does not succeed — it
returns `false`, or throws (`FilterFull` with `throwOnFull = true`, or
`InvalidArgument`) — then the filter state after the call, buckets and
`_length` alike, equals the state before the call: the undo log is popped
in reverse, every written slot is restored, and the evicted fingerprint is
discarded. -/
theorem cuckoo_add_rollback (hash : String → ℕ) (f : CuckooFilter)
    (element : String) (coin : Bool) (slots : ℕ → ℕ) (throwOnFull : Bool)
    (h : (CuckooFilter.add hash f element coin slots throwOnFull false).1 ≠
      Except.ok true) :
    (CuckooFilter.add hash f element coin slots throwOnFull false).2 = f := by
  revert h
  unfold CuckooFilter.add
  cases hl : f._locations hash element with
  | error e => intro _; rfl
  | ok loc =>
    by_cases h1 : (bucketAt f._filter loc.firstIndex).isFree = true
    · simp only [h1, if_true]
      intro h
      exact absurd rfl h
    · by_cases h2 : (bucketAt f._filter loc.secondIndex).isFree = true
      · simp only [h1, h2, if_true, Bool.false_eq_true, if_false]
        intro h
        exact absurd rfl h
      · simp only [h1, h2, Bool.false_eq_true, if_false]
        cases hk : kickLoop hash f._size slots f._maxKicks 0 f._filter
            loc.fingerprint (if coin then loc.firstIndex else loc.secondIndex)
            [] with
        | success f1 =>
          intro h
          exact absurd rfl h
        | failure f1 lg =>
          intro _
          have hr : rollback f1 lg = f._filter :=
            kickLoop_failure_rollback hash f._size slots f._maxKicks 0
              f._filter loc.fingerprint _ [] f1 lg hk
          by_cases ht : throwOnFull = true <;> simp [ht, hr]

/-- Witness for C1 at a concrete input: a full one-bucket filter, an
element whose insertion is rejected after one kick, and the state after
the failed call byte-equal to the state before. -/
theorem cuckoo_add_rollback_witness :
    (CuckooFilter.add (fun _ => 0)
      ⟨[⟨["0"], 1⟩], 1, 1, 1, 1, 1, 0⟩ "x" true (fun _ => 0) false false).2 =
      ⟨[⟨["0"], 1⟩], 1, 1, 1, 1, 1, 0⟩ :=
  cuckoo_add_rollback (fun _ => 0) ⟨[⟨["0"], 1⟩], 1, 1, 1, 1, 1, 0⟩ "x" true
    (fun _ => 0) false (by decide)

/-- Claim C10: `_length` equals the sum of the bucket lengths for a
freshly constructed filter, and this equality is preserved by every `add`
call (any flags, any outcome — success, `false`, or a throw) and by every
`remove` call. -/
theorem cuckoo_length_invariant :
    (∀ size fl bs mk, (CuckooFilter.construct size fl bs mk)._length =
      (sumLen (CuckooFilter.construct size fl bs mk)._filter : ℤ)) ∧
    (∀ (hash : String → ℕ) (f : CuckooFilter) (element : String)
      (coin : Bool) (slots : ℕ → ℕ) (throwOnFull destructive : Bool),
      f._length = (sumLen f._filter : ℤ) →
      (CuckooFilter.add hash f element coin slots throwOnFull
          destructive).2._length =
        (sumLen (CuckooFilter.add hash f element coin slots throwOnFull
          destructive).2._filter : ℤ)) ∧
    (∀ (hash : String → ℕ) (f : CuckooFilter) (element : String),
      f._length = (sumLen f._filter : ℤ) →
      (CuckooFilter.remove hash f element).2._length =
        (sumLen (CuckooFilter.remove hash f element).2._filter : ℤ)) := by
  refine ⟨?_, ?_, ?_⟩
  · intro size fl bs mk
    simp [CuckooFilter.construct, sumLen, List.map_replicate,
      List.sum_replicate, Bucket.length]
  · intro hash f element coin slots throwOnFull destructive hInv
    unfold CuckooFilter.add
    cases hl : f._locations hash element with
    | error e => exact hInv
    | ok loc =>
      by_cases h1 : (bucketAt f._filter loc.firstIndex).isFree = true
      · simp only [h1, if_true]
        rw [sumLen_set_succ _ _ _ (lt_length_of_isFree h1)
          (Bucket.length_add_of_isFree h1)]
        push_cast
        omega
      · by_cases h2 : (bucketAt f._filter loc.secondIndex).isFree = true
        · simp only [h1, h2, if_true, Bool.false_eq_true, if_false]
          rw [sumLen_set_succ _ _ _ (lt_length_of_isFree h2)
            (Bucket.length_add_of_isFree h2)]
          push_cast
          omega
        · simp only [h1, h2, Bool.false_eq_true, if_false]
          cases hk : kickLoop hash f._size slots f._maxKicks 0 f._filter
              loc.fingerprint
              (if coin then loc.firstIndex else loc.secondIndex) [] with
          | success f1 =>
            simp only []
            rw [kickLoop_success_sumLen hash f._size slots f._maxKicks 0
              f._filter loc.fingerprint _ [] f1 hk]
            push_cast
            omega
          | failure f1 lg =>
            have hs : sumLen f1 = sumLen f._filter :=
              kickLoop_failure_sumLen hash f._size slots f._maxKicks 0
                f._filter loc.fingerprint _ [] f1 lg hk
            by_cases hd : destructive = true <;>
              by_cases ht : throwOnFull = true <;>
                simp [hd, ht, hs, sumLen_rollback, hInv]
  · intro hash f element hInv
    unfold CuckooFilter.remove
    cases hl : f._locations hash element with
    | error e => exact hInv
    | ok loc =>
      by_cases h1 : (bucketAt f._filter loc.firstIndex).has loc.fingerprint =
          true
      · simp only [h1, if_true]
        have hmem : loc.fingerprint ∈
            (bucketAt f._filter loc.firstIndex)._elements :=
          List.elem_iff.mp h1
        have hlen : (bucketAt f._filter loc.firstIndex).length =
            ((bucketAt f._filter loc.firstIndex).remove
              loc.fingerprint).length + 1 := by
          have := List.length_erase_of_mem hmem
          have hpos : 0 < (bucketAt f._filter loc.firstIndex)._elements.length :=
            List.length_pos_of_mem hmem
          simp only [Bucket.remove, Bucket.length] at *
          omega
        have := sumLen_set_pred f._filter loc.firstIndex _
          (lt_length_of_has h1) hlen
        omega
      · by_cases h2 : (bucketAt f._filter loc.secondIndex).has
            loc.fingerprint = true
        · simp only [h1, h2, if_true, Bool.false_eq_true, if_false]
          have hmem : loc.fingerprint ∈
              (bucketAt f._filter loc.secondIndex)._elements :=
            List.elem_iff.mp h2
          have hlen : (bucketAt f._filter loc.secondIndex).length =
              ((bucketAt f._filter loc.secondIndex).remove
                loc.fingerprint).length + 1 := by
            have := List.length_erase_of_mem hmem
            have hpos : 0 <
                (bucketAt f._filter loc.secondIndex)._elements.length :=
              List.length_pos_of_mem hmem
            simp only [Bucket.remove, Bucket.length] at *
            omega
          have := sumLen_set_pred f._filter loc.secondIndex _
            (lt_length_of_has h2) hlen
          omega
        · simp only [h1, h2, Bool.false_eq_true, if_false]
          exact hInv

/-- Witness for C10 at concrete inputs: the invariant holds for the
constructed filter `construct 2 1 1 500` and is preserved by a concrete
`add` and a concrete `remove` on a concrete filter satisfying it. -/
theorem cuckoo_length_invariant_witness :
    (CuckooFilter.construct 2 1 1 500)._length =
      (sumLen (CuckooFilter.construct 2 1 1 500)._filter : ℤ) ∧
    (CuckooFilter.add (fun _ => 0) ⟨[⟨["0"], 1⟩, ⟨[], 1⟩], 2, 1, 1, 1, 1, 0⟩
        "x" true (fun _ => 0) true true).2._length =
      (sumLen (CuckooFilter.add (fun _ => 0)
        ⟨[⟨["0"], 1⟩, ⟨[], 1⟩], 2, 1, 1, 1, 1, 0⟩
        "x" true (fun _ => 0) true true).2._filter : ℤ) ∧
    (CuckooFilter.remove (fun _ => 0)
        ⟨[⟨["0"], 1⟩, ⟨[], 1⟩], 2, 1, 1, 1, 1, 0⟩ "x").2._length =
      (sumLen (CuckooFilter.remove (fun _ => 0)
        ⟨[⟨["0"], 1⟩, ⟨[], 1⟩], 2, 1, 1, 1, 1, 0⟩ "x").2._filter : ℤ) :=
  ⟨cuckoo_length_invariant.1 2 1 1 500,
   cuckoo_length_invariant.2.1 (fun _ => 0)
     ⟨[⟨["0"], 1⟩, ⟨[], 1⟩], 2, 1, 1, 1, 1, 0⟩ "x" true (fun _ => 0) true
     true (by decide),
   cuckoo_length_invariant.2.2 (fun _ => 0)
     ⟨[⟨["0"], 1⟩, ⟨[], 1⟩], 2, 1, 1, 1, 1, 0⟩ "x" (by decide)⟩

theorem xor_mod_two_pow (a b k : ℕ) :
    (a ^^^ b) % 2 ^ k = a % 2 ^ k ^^^ b % 2 ^ k := by
  apply Nat.eq_of_testBit_eq
  intro i
  rw [Nat.testBit_mod_two_pow, Nat.testBit_xor, Nat.testBit_xor,
    Nat.testBit_mod_two_pow, Nat.testBit_mod_two_pow]
  by_cases h : i < k <;> simp [h]

/-- Claim C3: `_locations` returns the low `_fingerprintLength` bits of
the element's hash as the fingerprint, and the two bucket indices satisfy
`secondIndex = (firstIndex xor (hash(fingerprint) mod _size)) mod _size`,
for every filter whose `_size` is a power of two `2^k` with `k ≤ 32` (as
the constructor guarantees) and whose fingerprint fits the 64-character
hash string. -/
theorem cuckoo_locations_partial_key (hash : String → ℕ) (f : CuckooFilter)
    (element : String) (k : ℕ) (hk : k ≤ 32) (hsize : f._size = 2 ^ k)
    (hfl : f._fingerprintLength ≤ 64) :
    f._locations hash element = Except.ok
      { fingerprint := bitString (hash element) f._fingerprintLength
        firstIndex := hash element % 2 ^ 32 % f._size
        secondIndex := (hash element % 2 ^ 32 % f._size ^^^
            hash (bitString (hash element) f._fingerprintLength) % f._size) %
          f._size } := by
  have hguard : ¬ (max 64 (binLength (hash element)) <
      f._fingerprintLength) := by
    have h1 : f._fingerprintLength ≤ max 64 (binLength (hash element)) :=
      le_trans hfl (le_max_left _ _)
    omega
  unfold CuckooFilter._locations
  rw [if_neg hguard]
  have hdvd : (2 : ℕ) ^ k ∣ 2 ^ 32 := pow_dvd_pow 2 hk
  have hpos : 0 < (2 : ℕ) ^ k := Nat.pos_pow_of_pos k (by omega)
  simp only [Except.ok.injEq, CuckooLocations.mk.injEq, true_and]
  rw [hsize]
  rw [Nat.mod_mod_of_dvd _ hdvd, Nat.mod_mod_of_dvd _ hdvd,
    xor_mod_two_pow]
  rw [Nat.mod_eq_of_lt (Nat.xor_lt_two_pow (Nat.mod_lt _ hpos)
    (Nat.mod_lt _ hpos))]

/-- Witness for C3 at a concrete input: a two-bucket filter with
one-bit fingerprints and the constant-zero hash. -/
theorem cuckoo_locations_partial_key_witness :
    CuckooFilter._locations (fun _ => 0)
      ⟨[⟨[], 1⟩, ⟨[], 1⟩], 2, 1, 1, 0, 500, 0⟩ "x" = Except.ok
      { fingerprint := bitString 0 1
        firstIndex := 0 % 2 ^ 32 % 2
        secondIndex := (0 % 2 ^ 32 % 2 ^^^ 0 % 2) % 2 } :=
  cuckoo_locations_partial_key (fun _ => 0)
    ⟨[⟨[], 1⟩, ⟨[], 1⟩], 2, 1, 1, 0, 500, 0⟩ "x" 1 (by decide) (by decide)
    (by decide)

/-- Claim C7: `remove` checks the bucket at `firstIndex` and then the
bucket at `secondIndex`; if the fingerprint is present in one of them it
deletes one occurrence from the first containing bucket, decrements
`_length` by one and returns `true`; if it is present in neither it
returns `false` without raising an error and leaves the filter unchanged.
(`hloc` states that `_locations` succeeds, which holds whenever
`_fingerprintLength` fits the 64-character hash string.) -/
theorem cuckoo_remove_spec (hash : String → ℕ) (f : CuckooFilter)
    (element : String) (loc : CuckooLocations)
    (hloc : f._locations hash element = Except.ok loc) :
    ((bucketAt f._filter loc.firstIndex).has loc.fingerprint = true →
      CuckooFilter.remove hash f element = (Except.ok true,
        { f with
          _filter := f._filter.set loc.firstIndex
            ((bucketAt f._filter loc.firstIndex).remove loc.fingerprint)
          _length := f._length - 1 })) ∧
    ((bucketAt f._filter loc.firstIndex).has loc.fingerprint = false →
      (bucketAt f._filter loc.secondIndex).has loc.fingerprint = true →
      CuckooFilter.remove hash f element = (Except.ok true,
        { f with
          _filter := f._filter.set loc.secondIndex
            ((bucketAt f._filter loc.secondIndex).remove loc.fingerprint)
          _length := f._length - 1 })) ∧
    ((bucketAt f._filter loc.firstIndex).has loc.fingerprint = false →
      (bucketAt f._filter loc.secondIndex).has loc.fingerprint = false →
      CuckooFilter.remove hash f element = (Except.ok false, f)) := by
  refine ⟨?_, ?_, ?_⟩
  · intro h1
    unfold CuckooFilter.remove
    rw [hloc]
    simp only [h1, if_true]
  · intro h1 h2
    unfold CuckooFilter.remove
    rw [hloc]
    simp only [h1, h2, if_true, Bool.false_eq_true, if_false]
  · intro h1 h2
    unfold CuckooFilter.remove
    rw [hloc]
    simp only [h1, h2, Bool.false_eq_true, if_false]

/-- Witness for C7 at a concrete input: removing an element present in
its first bucket deletes it and decrements the counter. -/
theorem cuckoo_remove_spec_witness :
    CuckooFilter.remove (fun _ => 0)
      ⟨[⟨["0"], 1⟩, ⟨[], 1⟩], 2, 1, 1, 1, 500, 0⟩ "x" = (Except.ok true,
      { _filter := [⟨[], 1⟩, ⟨[], 1⟩], _size := 2, _bucketSize := 1,
        _fingerprintLength := 1, _length := 0, _maxKicks := 500,
        _seed := 0 }) := by
  have h := (cuckoo_remove_spec (fun _ => 0)
    ⟨[⟨["0"], 1⟩, ⟨[], 1⟩], 2, 1, 1, 1, 500, 0⟩ "x"
    ⟨bitString 0 1, 0, 0⟩ (by decide)).1 (by decide)
  rw [h]
  decide

/-- Claim C8: for two cuckoo filters with the same number of buckets,
`equals` returns true iff the buckets are pairwise equal, and the result
only depends on the bucket arrays — it is unchanged under arbitrary
replacement of `_seed`, `_length`, `_bucketSize`, `_fingerprintLength`
and `_maxKicks` in either filter. -/
theorem cuckoo_equals_spec (f g : CuckooFilter)
    (_hlen : f._filter.length = g._filter.length) :
    (CuckooFilter.equals f g = true ↔
      ∀ i < f._filter.length,
        Bucket.equals (bucketAt g._filter i) (bucketAt f._filter i) = true) ∧
    ∀ (s : ℕ) (l : ℤ) (bs fl mk : ℕ) (s' : ℕ) (l' : ℤ) (bs' fl' mk' : ℕ),
      CuckooFilter.equals
        { f with _seed := s, _length := l, _bucketSize := bs,
                 _fingerprintLength := fl, _maxKicks := mk }
        { g with _seed := s', _length := l', _bucketSize := bs',
                 _fingerprintLength := fl', _maxKicks := mk' } =
      CuckooFilter.equals f g := by
  constructor
  · simp only [CuckooFilter.equals, List.all_eq_true, List.mem_range]
  · intro s l bs fl mk s' l' bs' fl' mk'
    rfl

/-- Witness for C8 at a concrete input: two filters with permuted bucket
contents and entirely different attributes compare equal. -/
theorem cuckoo_equals_spec_witness :
    CuckooFilter.equals ⟨[⟨["0", "1"], 2⟩], 1, 2, 1, 2, 500, 0⟩
      ⟨[⟨["1", "0"], 2⟩], 1, 4, 7, 9, 3, 5⟩ = true :=
  (cuckoo_equals_spec ⟨[⟨["0", "1"], 2⟩], 1, 2, 1, 2, 500, 0⟩
    ⟨[⟨["1", "0"], 2⟩], 1, 4, 7, 9, 3, 5⟩ (by decide)).1.mpr (by decide)

theorem binLengthAux_le (fuel : ℕ) :
    ∀ (h k : ℕ), 1 ≤ k → h < 2 ^ k → binLengthAux fuel h ≤ k := by
  induction fuel with
  | zero =>
    intro h k hk _
    simpa [binLengthAux] using hk
  | succ n ih =>
    intro h k hk hh
    rw [binLengthAux]
    split
    · exact hk
    · rename_i hgt
      have h2 : 2 ≤ h := by omega
      have hk2 : 2 ≤ k := by
        by_contra hc
        have : k = 1 := by omega
        subst this
        simp only [pow_one] at hh
        omega
      have hd : h / 2 < 2 ^ (k - 1) := by
        rw [Nat.div_lt_iff_lt_mul (by omega : 0 < 2)]
        have : 2 ^ (k - 1) * 2 = 2 ^ k := by
          rw [← pow_succ]
          congr 1
          omega
        omega
      have := ih (h / 2) (k - 1) (by omega) hd
      omega

theorem binLength_le {h : ℕ} (hh : h < 2 ^ 64) : binLength h ≤ 64 :=
  binLengthAux_le h h 64 (by omega) hh

theorem locations_error_elim {hash : String → ℕ} {f : CuckooFilter}
    {element : String} {e : CuckooError}
    (hl : f._locations hash element = Except.error e) :
    e = CuckooError.invalidArgument ∧
      max 64 (binLength (hash element)) < f._fingerprintLength := by
  unfold CuckooFilter._locations at hl
  dsimp only at hl
  split at hl
  · cases hl
    exact ⟨rfl, by assumption⟩
  · cases hl

theorem locations_ok_of_le {hash : String → ℕ} {f : CuckooFilter}
    {element : String} (hfl : f._fingerprintLength ≤ 64) :
    f._locations hash element = Except.ok
      { fingerprint := bitString (hash element) f._fingerprintLength
        firstIndex := hash element % 2 ^ 32 % f._size
        secondIndex := (hash element ^^^
          hash (bitString (hash element) f._fingerprintLength)) % 2 ^ 32 %
          f._size } := by
  unfold CuckooFilter._locations
  rw [if_neg]
  intro hcon
  have : f._fingerprintLength ≤ max 64 (binLength (hash element)) :=
    le_trans hfl (le_max_left _ _)
  omega

theorem add_fst_of_locations_ok {hash : String → ℕ} {f : CuckooFilter}
    {element : String} {loc : CuckooLocations} (coin : Bool)
    (slots : ℕ → ℕ) (throwOnFull destructive : Bool)
    (hl : f._locations hash element = Except.ok loc) :
    (CuckooFilter.add hash f element coin slots throwOnFull destructive).1 ≠
      Except.error CuckooError.invalidArgument := by
  unfold CuckooFilter.add
  rw [hl]
  by_cases h1 : (bucketAt f._filter loc.firstIndex).isFree = true
  · simp [h1]
  · by_cases h2 : (bucketAt f._filter loc.secondIndex).isFree = true
    · simp [h1, h2]
    · simp only [h1, h2, Bool.false_eq_true, if_false]
      cases hk : kickLoop hash f._size slots f._maxKicks 0 f._filter
          loc.fingerprint (if coin then loc.firstIndex else loc.secondIndex)
          [] with
      | success f1 => simp
      | failure f1 lg =>
        by_cases ht : throwOnFull = true <;> simp [ht]

/-- Counterexample to claim C6 as stated: with a 10-bit fingerprint and an
element whose 64-bit hash value is 5 — bit length 3, smaller than the
fingerprint length — `has`, `remove` and `add` raise no `InvalidArgument`
error at all: the source compares the fingerprint length against the
zero-padded 64-character hash string, not against the hash's bit length. -/
theorem cuckoo_fingerprint_invariant_counterexample :
    binLength 5 < 10 ∧
    CuckooFilter.has (fun _ => 5)
      ⟨[⟨[], 1⟩, ⟨[], 1⟩], 2, 1, 10, 0, 500, 0⟩ "x" = Except.ok false ∧
    (CuckooFilter.remove (fun _ => 5)
      ⟨[⟨[], 1⟩, ⟨[], 1⟩], 2, 1, 10, 0, 500, 0⟩ "x").1 = Except.ok false ∧
    (CuckooFilter.add (fun _ => 5)
      ⟨[⟨[], 1⟩, ⟨[], 1⟩], 2, 1, 10, 0, 500, 0⟩ "x" true (fun _ => 0) true
      true).1 = Except.ok true := by
  refine ⟨by decide, by decide, by decide, by decide⟩

/-- Claim C6 (amended): for every element whose hash fits in 64 bits, the
operations `add`, `has` and `remove` fail with `InvalidArgument` if and
only if the filter's `_fingerprintLength` exceeds 64, the length of the
zero-padded binary hash string; the bit length of the individual hash
value is irrelevant because of the padding. -/
theorem cuckoo_fingerprint_invariant_amended (hash : String → ℕ)
    (f : CuckooFilter) (element : String) (coin : Bool) (slots : ℕ → ℕ)
    (throwOnFull destructive : Bool) (hh : hash element < 2 ^ 64) :
    ((CuckooFilter.add hash f element coin slots throwOnFull
        destructive).1 = Except.error CuckooError.invalidArgument ↔
      64 < f._fingerprintLength) ∧
    ((CuckooFilter.remove hash f element).1 =
        Except.error CuckooError.invalidArgument ↔
      64 < f._fingerprintLength) ∧
    (CuckooFilter.has hash f element =
        Except.error CuckooError.invalidArgument ↔
      64 < f._fingerprintLength) := by
  have hmax : max 64 (binLength (hash element)) = 64 :=
    max_eq_left (binLength_le hh)
  by_cases hfl : 64 < f._fingerprintLength
  · have hloc : f._locations hash element =
        Except.error CuckooError.invalidArgument := by
      unfold CuckooFilter._locations
      rw [if_pos]
      rw [hmax]
      exact hfl
    refine ⟨?_, ?_, ?_⟩ <;>
      [unfold CuckooFilter.add; unfold CuckooFilter.remove;
        unfold CuckooFilter.has] <;>
      rw [hloc] <;> simp [hfl]
  · have hle : f._fingerprintLength ≤ 64 := Nat.le_of_not_lt hfl
    have hok := @locations_ok_of_le hash f element hle
    refine ⟨?_, ?_, ?_⟩
    · simp only [hfl, iff_false]
      exact add_fst_of_locations_ok coin slots throwOnFull destructive hok
    · simp only [hfl, iff_false]
      unfold CuckooFilter.remove
      rw [hok]
      dsimp only
      split
      · simp
      · split <;> simp
    · simp only [hfl, iff_false]
      unfold CuckooFilter.has
      rw [hok]
      simp

/-- Witness for the amended C6 at a concrete input: a filter with a
fingerprint length of 100 bits raises `InvalidArgument` on `has`. -/
theorem cuckoo_fingerprint_invariant_amended_witness :
    CuckooFilter.has (fun _ => 0) ⟨[], 0, 0, 100, 0, 500, 0⟩ "x" =
      Except.error CuckooError.invalidArgument :=
  (cuckoo_fingerprint_invariant_amended (fun _ => 0)
    ⟨[], 0, 0, 100, 0, 500, 0⟩ "x" true (fun _ => 0) false false
    (by decide)).2.2.mpr (by decide)

/-- Claim C9: assigning seed `s` to a scalable bloom filter sets `_seed`
to `s`, reseeds the PRNG from `s`, and sets the seed of every inner
partitioned filter to `s`, while leaving the list of inner filters — their
number, stored contents and creation parameters — and `_initial_size`,
`_error_rate`, `_ratio` unchanged (stored data is not rehashed). -/
theorem scalable_seed_propagation (f : ScalableBloomFilter) (s : ℕ) :
    (f.setSeed s)._seed = s ∧
    (f.setSeed s)._rng = s ∧
    (∀ pf ∈ (f.setSeed s)._filters, pf._seed = s) ∧
    (f.setSeed s)._filters.length = f._filters.length ∧
    (f.setSeed s)._filters.map PartitionBloomFilter._data =
      f._filters.map PartitionBloomFilter._data ∧
    (f.setSeed s)._filters.map
        (fun pf => (pf._size, pf._error, pf._ratio)) =
      f._filters.map (fun pf => (pf._size, pf._error, pf._ratio)) ∧
    (f.setSeed s)._initial_size = f._initial_size ∧
    (f.setSeed s)._error_rate = f._error_rate ∧
    (f.setSeed s)._ratio = f._ratio := by
  refine ⟨rfl, rfl, ?_, ?_, ?_, ?_, rfl, rfl, rfl⟩
  · intro pf hpf
    simp only [ScalableBloomFilter.setSeed, List.mem_map] at hpf
    obtain ⟨q, _, rfl⟩ := hpf
    rfl
  · simp [ScalableBloomFilter.setSeed]
  · simp only [ScalableBloomFilter.setSeed, List.map_map]
    exact List.map_congr_left fun a _ => rfl
  · simp only [ScalableBloomFilter.setSeed, List.map_map]
    exact List.map_congr_left fun a _ => rfl

theorem getD_set_self {α : Type} {l : List α} {i : ℕ} (h : i < l.length)
    (a d : α) : (l.set i a).getD i d = a := by
  rw [List.getD_eq_getElem?_getD, List.getElem?_set_self h]
  rfl

theorem getD_set_ne {α : Type} {l : List α} {i j : ℕ} (h : i ≠ j)
    (a d : α) : (l.set i a).getD j d = l.getD j d := by
  rw [List.getD_eq_getElem?_getD, List.getD_eq_getElem?_getD,
    List.getElem?_set_ne h]

theorem getD_insert_last (L : List PartitionBloomFilter) (e : String)
    (j : ℕ) :
    ((L.set (L.length - 1)
        ((L.getD (L.length - 1) default).insert e)).getD j default)._size =
      (L.getD j default)._size ∧
    ((L.set (L.length - 1)
        ((L.getD (L.length - 1) default).insert e)).getD j default)._error =
      (L.getD j default)._error ∧
    ((L.set (L.length - 1)
        ((L.getD (L.length - 1) default).insert e)).getD j default)._ratio =
      (L.getD j default)._ratio := by
  by_cases hj : L.length - 1 = j
  · subst hj
    by_cases hl : L.length - 1 < L.length
    · rw [getD_set_self hl]
      exact ⟨rfl, rfl, rfl⟩
    · rw [List.set_eq_of_length_le (Nat.le_of_not_lt hl)]
      exact ⟨rfl, rfl, rfl⟩
  · rw [getD_set_ne hj]
    exact ⟨rfl, rfl, rfl⟩

theorem scalable_create_inv (init err ratio : ℚ) :
    ScalableInv init err ratio (ScalableBloomFilter.create init err ratio) := by
  refine ⟨rfl, rfl, rfl, by simp [ScalableBloomFilter.create], rfl, rfl,
    ?_, ?_⟩
  · intro j h1 h2
    simp only [ScalableBloomFilter.create, List.length_cons,
      List.length_nil] at h2
    omega
  · intro j hj
    simp only [ScalableBloomFilter.create, List.length_cons,
      List.length_nil] at hj
    interval_cases j
    rfl

theorem scalable_add_inv (init err ratio : ℚ) (f : ScalableBloomFilter)
    (e : String) (grow : Bool) (hf : ScalableInv init err ratio f) :
    ScalableInv init err ratio (f.add e grow) := by
  obtain ⟨hinit, herr, hratio, hlen, h0s, h0e, hj, hr⟩ := hf
  cases grow with
  | false =>
    have hfs : (f.add e false)._filters =
        f._filters.set (f._filters.length - 1)
          ((f._filters.getD (f._filters.length - 1) default).insert e) :=
      rfl
    refine ⟨hinit, herr, hratio, ?_, ?_, ?_, ?_, ?_⟩ <;> rw [hfs]
    · rw [List.length_set]
      exact hlen
    · rw [(getD_insert_last f._filters e 0).1]
      exact h0s
    · rw [(getD_insert_last f._filters e 0).2.1]
      exact h0e
    · intro j h1 h2
      rw [List.length_set] at h2
      obtain ⟨hs, he⟩ := hj j h1 h2
      refine ⟨?_, ?_⟩
      · rw [(getD_insert_last f._filters e j).1]
        exact hs
      · rw [(getD_insert_last f._filters e j).2.1]
        exact he
    · intro j h2
      rw [List.length_set] at h2
      rw [(getD_insert_last f._filters e j).2.2]
      exact hr j h2
  | true =>
    set n := f._filters.length with hn
    set newPF := (PartitionBloomFilter.create
      (f._initial_size * 2 ^ (n + 1) * LN2)
      (f._error_rate * f._ratio ^ n) f._ratio).setSeed f._seed with hnew
    have hfs : (f.add e true)._filters =
        (f._filters ++ [newPF]).set n
          (((f._filters ++ [newPF]).getD n default).insert e) := by
      simp only [ScalableBloomFilter.add, if_true, List.length_append,
        List.length_cons, List.length_nil, hn, Nat.add_sub_cancel]
    have hlenfs : (f.add e true)._filters.length = n + 1 := by
      rw [hfs]
      simp
    have hget : ∀ j, ((f.add e true)._filters.getD j default)._size =
        ((f._filters ++ [newPF]).getD j default)._size ∧
        ((f.add e true)._filters.getD j default)._error =
        ((f._filters ++ [newPF]).getD j default)._error ∧
        ((f.add e true)._filters.getD j default)._ratio =
        ((f._filters ++ [newPF]).getD j default)._ratio := by
      intro j
      rw [hfs]
      have := getD_insert_last (f._filters ++ [newPF]) e j
      simpa using this
    have happlt : ∀ j, j < n →
        (f._filters ++ [newPF]).getD j default =
          f._filters.getD j default := by
      intro j hjn
      exact List.getD_append _ _ _ _ hjn
    have happn : (f._filters ++ [newPF]).getD n default = newPF := by
      rw [List.getD_eq_getElem?_getD, hn,
        List.getElem?_append_right (le_refl _)]
      simp
    refine ⟨hinit, herr, hratio, by omega, ?_, ?_, ?_, ?_⟩
    · rw [(hget 0).1, happlt 0 hlen]
      exact h0s
    · rw [(hget 0).2.1, happlt 0 hlen]
      exact h0e
    · intro j h1 h2
      rw [hlenfs] at h2
      by_cases hjn : j < n
      · obtain ⟨hs, he⟩ := hj j h1 hjn
        rw [(hget j).1, (hget j).2.1, happlt j hjn]
        exact ⟨hs, he⟩
      · have hjn' : j = n := by omega
        rw [hjn', (hget n).1, (hget n).2.1, happn, hnew]
        simp only [PartitionBloomFilter.create, PartitionBloomFilter.setSeed]
        rw [hinit, herr, hratio]
        exact ⟨rfl, rfl⟩
    · intro j h2
      rw [hlenfs] at h2
      by_cases hjn : j < n
      · rw [(hget j).2.2, happlt j hjn]
        exact hr j hjn
      · have hjn' : j = n := by omega
        rw [hjn', (hget n).2.2, happn, hnew]
        simp only [PartitionBloomFilter.create, PartitionBloomFilter.setSeed]
        exact hratio

theorem scalable_applyAdds_inv (init err ratio : ℚ)
    (ops : List (String × Bool)) :
    ∀ (f : ScalableBloomFilter), ScalableInv init err ratio f →
      ScalableInv init err ratio (f.applyAdds ops) := by
  induction ops with
  | nil =>
    intro f hf
    exact hf
  | cons op rest ih =>
    intro f hf
    obtain ⟨e, g⟩ := op
    exact ih _ (scalable_add_inv init err ratio f e g hf)

/-- Counterexample to claim C4 as stated: the inner filter at 0-indexed
position 0 of `new ScalableBloomFilter(8, 0.01, 0.5)` is created with
target size 8 — the constructor passes `initial_size` itself — and not
with `initial_size · 2^(0+1) · ln 2 ≈ 11.09` as the claimed formula
requires at `j = 0`. -/
theorem scalable_inner_params_counterexample :
    ((ScalableBloomFilter.create 8 (1 / 100) (1 / 2))._filters.getD 0
      default)._size = 8 ∧ (8 : ℚ) ≠ 8 * 2 ^ (0 + 1) * LN2 := by
  constructor
  · rfl
  · rw [LN2]
    norm_num

/-- Claim C4 (amended): for every `ScalableBloomFilter(init, err, ratio)`
and any sequence of `add` calls (with any growth-test outcomes), the inner
partitioned filter at 0-indexed position `j ≥ 1` was created with target
size `init · 2^(j+1) · ln 2` (the product is passed to
`PartitionBloomFilter.create` unrounded) and error rate `err · ratio^j`,
and every inner filter was created with ratio `ratio`; the initial filter
at `j = 0` was instead created with `(init, err)` — the claimed size
formula does not hold there. -/
theorem scalable_inner_params_amended (init err ratio : ℚ)
    (ops : List (String × Bool)) :
    ScalableInv init err ratio
      ((ScalableBloomFilter.create init err ratio).applyAdds ops) :=
  scalable_applyAdds_inv init err ratio ops _
    (scalable_create_inv init err ratio)

/-- Witness for the amended C4 at a concrete input: one growing `add` on
`ScalableBloomFilter(8, 0.01, 0.5)` creates the inner filter at position 1
with size `8 · 2^2 · LN2` and error rate `0.01 · 0.5`. -/
theorem scalable_inner_params_amended_witness :
    ((((ScalableBloomFilter.create 8 (1 / 100) (1 / 2)).applyAdds
      [("a", true)])._filters.getD 1 default)._size = 8 * 2 ^ (1 + 1) * LN2) ∧
    ((((ScalableBloomFilter.create 8 (1 / 100) (1 / 2)).applyAdds
      [("a", true)])._filters.getD 1 default)._error =
      (1 / 100) * (1 / 2) ^ 1) := by
  have h := (scalable_inner_params_amended 8 (1 / 100) (1 / 2)
    [("a", true)]).2.2.2.2.2.2.1 1 (by omega)
    (by simp [ScalableBloomFilter.applyAdds, ScalableBloomFilter.add,
      ScalableBloomFilter.create])
  exact h

theorem nat_clog2_eq {n k : ℕ} (hk : 0 < k) (h1 : 2 ^ (k - 1) < n)
    (h2 : n ≤ 2 ^ k) : Nat.clog 2 n = k := by
  have hle : Nat.clog 2 n ≤ k :=
    (Nat.le_pow_iff_clog_le (by norm_num)).mp h2
  have hlt : k - 1 < Nat.clog 2 n :=
    (Nat.pow_lt_iff_lt_clog (by norm_num)).mp h1
  omega

theorem ceil_logb_eq_intClog (q : ℚ) (hq : 1 ≤ q) :
    ⌈Real.logb 2 (q : ℝ)⌉ = Int.clog 2 q := by
  rw [Int.clog_of_one_le_right _ hq]
  have hq0 : (0 : ℝ) < (q : ℝ) := by
    have : (1 : ℝ) ≤ (q : ℝ) := by exact_mod_cast hq
    linarith
  apply Int.ceil_eq_iff.mpr
  constructor
  · cases hk : Nat.clog 2 ⌈q⌉₊ with
    | zero =>
      have hq1r : (1 : ℝ) ≤ (q : ℝ) := by exact_mod_cast hq
      have hlogb := Real.logb_nonneg (by norm_num : (1:ℝ) < 2) hq1r
      simp only [hk, Nat.cast_zero, Int.cast_zero]
      linarith
    | succ m =>
      have hmlt : m < Nat.clog 2 ⌈q⌉₊ := by omega
      have hlt : 2 ^ m < ⌈q⌉₊ :=
        (Nat.pow_lt_iff_lt_clog (by norm_num)).mpr hmlt
      have hceil : ((⌈q⌉₊ : ℝ)) < (q : ℝ) + 1 := by
        exact_mod_cast Nat.ceil_lt_add_one (le_of_lt (by exact_mod_cast hq0))
      have hpow : ((2 : ℝ)) ^ m + 1 ≤ (⌈q⌉₊ : ℝ) := by
        exact_mod_cast hlt
      have hqgt : ((2 : ℝ)) ^ m < (q : ℝ) := by linarith
      have : ((m : ℝ)) < Real.logb 2 (q : ℝ) := by
        rw [Real.lt_logb_iff_rpow_lt (by norm_num) hq0]
        rw [Real.rpow_natCast]
        exact hqgt
      push_cast
      linarith
  · have hle : ⌈q⌉₊ ≤ 2 ^ Nat.clog 2 ⌈q⌉₊ :=
      Nat.le_pow_clog (by norm_num) _
    have hqle : (q : ℝ) ≤ ((2 : ℝ)) ^ Nat.clog 2 ⌈q⌉₊ := by
      calc (q : ℝ) ≤ (⌈q⌉₊ : ℝ) := by exact_mod_cast Nat.le_ceil q
        _ ≤ ((2 : ℝ)) ^ Nat.clog 2 ⌈q⌉₊ := by exact_mod_cast hle
    rw [show (((Nat.clog 2 ⌈q⌉₊ : ℤ) : ℝ)) = ((Nat.clog 2 ⌈q⌉₊ : ℕ) : ℝ) by
      push_cast
      rfl]
    rw [Real.logb_le_iff_le_rpow (by norm_num) hq0, Real.rpow_natCast]
    exact hqle

/-- Over exact reals, the source's fingerprint-length formula
`⌈log₂(1/rate) + log₂(2·size)⌉` equals `Int.clog 2 (2·size/rate)`, which
is how `computeFingerpintLength` is defined here. -/
theorem computeFingerpintLength_eq_ceil (size : ℕ) (rate : ℚ)
    (hr : 0 < rate) (hr1 : rate ≤ 1) (hs : 0 < size) :
    computeFingerpintLength size rate = specFingerprintLength size rate := by
  unfold computeFingerpintLength specFingerprintLength
  have hs1 : (1 : ℚ) ≤ (size : ℚ) := by exact_mod_cast hs
  have hq1 : (1 : ℚ) ≤ 2 * (size : ℚ) / rate := by
    rw [le_div_iff₀ hr]
    nlinarith
  rw [← ceil_logb_eq_intClog _ hq1]
  congr 1
  rw [← Real.logb_mul (by positivity) (by positivity)]
  congr 1
  push_cast
  field_simp

theorem getNearestPow2_eq {n k : ℕ} (h : Nat.clog 2 n = k) :
    getNearestPow2 n = 2 ^ k := by
  rw [getNearestPow2, h]

theorem create_size_eq (n : ℕ) (p : ℚ) (b mk : ℕ) :
    (CuckooFilter.create n p b mk)._size =
      getNearestPow2 (capacityOf n b) % 2 ^ 32 := rfl

theorem create_fl_eq (n : ℕ) (p : ℚ) (b mk : ℕ) :
    (CuckooFilter.create n p b mk)._fingerprintLength =
      (computeFingerpintLength b p).toNat := rfl

theorem specCuckooSize_eq (n b : ℕ) :
    specCuckooSize n b = getNearestPow2 (capacityOf n b) := rfl

theorem capacityOf_1000_4 : capacityOf 1000 4 = 262 := by
  unfold capacityOf
  norm_num
  have h : ⌈(50000 / 191 : ℚ)⌉ = (262 : ℤ) := by
    apply Int.ceil_eq_iff.mpr
    constructor <;> norm_num
  rw [h]
  rfl

theorem nearestPow2_262 : getNearestPow2 262 = 512 := by
  rw [getNearestPow2_eq (nat_clog2_eq (k := 9) (by norm_num) (by norm_num)
    (by norm_num))]
  norm_num

theorem fl_create_1000_0_01_4 : computeFingerpintLength 4 (1 / 100) = 10 := by
  unfold computeFingerpintLength
  rw [show (2 * ((4 : ℕ) : ℚ) / (1 / 100) : ℚ) = ((800 : ℕ) : ℚ) by
    norm_num]
  rw [Int.clog_natCast]
  rw [nat_clog2_eq (k := 10) (by norm_num) (by norm_num) (by norm_num)]
  norm_num

theorem capacityOf_big : capacityOf (2 ^ 40) 4 = 287830269052 := by
  unfold capacityOf
  norm_num
  have h : ⌈(54975581388800 / 191 : ℚ)⌉ = (287830269052 : ℤ) := by
    apply Int.ceil_eq_iff.mpr
    constructor <;> norm_num
  rw [h]
  rfl

theorem nearestPow2_big : getNearestPow2 287830269052 = 2 ^ 39 :=
  getNearestPow2_eq (nat_clog2_eq (by norm_num) (by norm_num) (by norm_num))

/-- Counterexample to claim C5 as stated: at `n = 2^40` the constructor's
32-bit truncation (`BigInt.asUintN(32, …)`) collapses the rounded power of
two `2^39` to `0`, so `_size` is not the capacity rounded up to the next
power of two. -/
theorem cuckoo_create_size_counterexample :
    (CuckooFilter.create (2 ^ 40) (1 / 100) 4 500)._size = 0 ∧
    specCuckooSize (2 ^ 40) 4 = 2 ^ 39 ∧ (2 : ℕ) ^ 39 ≠ 0 := by
  refine ⟨?_, ?_, by norm_num⟩
  · rw [create_size_eq, capacityOf_big, nearestPow2_big]
    norm_num
  · rw [specCuckooSize_eq, capacityOf_big, nearestPow2_big]

/-- Claim C5 (amended): `create(n, p, bucketSize)` produces a filter whose
`fingerprintLength` is `⌈log₂(1/p) + log₂(2·bucketSize)⌉` (over exact
reals, for `0 < p ≤ 1` and positive bucket size) and whose `_size` is
`⌈max(n,32)/bucketSize/0.955⌉` rounded up to the next power of two and
then truncated to an unsigned 32-bit value; the truncation is the one
departure from the claim (see the counterexample at `n = 2^40`). In
particular `create(1000, 0.01, 4)` yields `fingerprintLength = 10` and
`_size = 512`. -/
theorem cuckoo_create_sizing_amended :
    (∀ (n : ℕ) (p : ℚ) (b mk : ℕ),
      (CuckooFilter.create n p b mk)._size = specCuckooSize n b % 2 ^ 32 ∧
      (CuckooFilter.create n p b mk)._fingerprintLength =
        (computeFingerpintLength b p).toNat) ∧
    (∀ (p : ℚ) (b : ℕ), 0 < p → p ≤ 1 → 0 < b →
      computeFingerpintLength b p = specFingerprintLength b p) ∧
    (CuckooFilter.create 1000 (1 / 100) 4 500)._fingerprintLength = 10 ∧
    (CuckooFilter.create 1000 (1 / 100) 4 500)._size = 512 := by
  refine ⟨fun n p b mk => ⟨rfl, rfl⟩,
    fun p b hp hp1 hb => computeFingerpintLength_eq_ceil b p hp hp1 hb,
    ?_, ?_⟩
  · rw [create_fl_eq, fl_create_1000_0_01_4]
    rfl
  · rw [create_size_eq, capacityOf_1000_4, nearestPow2_262]
    norm_num

/-- Witness for the amended C5 at a concrete input: the fingerprint
length computed by the source coincides with the spec's ceiling-of-logs
formula at `(p, bucketSize) = (0.01, 4)`. -/
theorem cuckoo_create_sizing_amended_witness :
    computeFingerpintLength 4 (1 / 100) = specFingerprintLength 4 (1 / 100) :=
  cuckoo_create_sizing_amended.2.1 (1 / 100) 4 (by norm_num) (by norm_num)
    (by norm_num)

theorem mem_set_or {α : Type} {a : α} {l : List α} (j : ℕ) (v d : α)
    (h : a ∈ l) : a ∈ l.set j v ∨ l.getD j d = a := by
  induction l generalizing j with
  | nil => cases h
  | cons x xs ih =>
    cases j with
    | zero =>
      cases h with
      | head => right; rfl
      | tail _ hmem =>
        left
        exact List.mem_cons_of_mem _ hmem
    | succ n =>
      cases h with
      | head => left; exact List.mem_cons_self _ _
      | tail _ hmem =>
        cases ih n hmem with
        | inl hl =>
          left
          exact List.mem_cons_of_mem _ hl
        | inr hr => right; exact hr

theorem mem_set_self {α : Type} {l : List α} {j : ℕ} (h : j < l.length)
    (v : α) : v ∈ l.set j v := by
  have h' : j < (l.set j v).length := by
    rw [List.length_set]
    exact h
  have hg := List.getElem_set_self (l := l) (i := j) (a := v) h'
  have hm := List.getElem_mem h'
  rw [hg] at hm
  exact hm

theorem Bucket.isFree_lt {b : Bucket} (h : b.isFree = true) :
    b.length < b._size := by
  simpa [Bucket.isFree] using h

theorem Bucket.isFree_not_lt {b : Bucket} (h : b.isFree = false) :
    b._size ≤ b.length := by
  simp only [Bucket.isFree, decide_eq_false_iff_not, Nat.not_lt] at h
  exact h

theorem Bucket.mem_add {b : Bucket} {v w : String}
    (h : w ∈ b._elements) : w ∈ (b.add v)._elements := by
  unfold Bucket.add
  split
  · exact List.mem_append_left _ h
  · exact h

theorem Bucket.mem_add_self {b : Bucket} {v : String}
    (h : b.isFree = true) : v ∈ (b.add v)._elements := by
  unfold Bucket.add
  rw [if_pos h]
  exact List.mem_append_right _ (List.mem_singleton.mpr rfl)

theorem Bucket.size_add (b : Bucket) (v : String) :
    (b.add v)._size = b._size := by
  unfold Bucket.add
  split <;> rfl

theorem randomInt_lt {n r : ℕ} (h : 0 < n) : randomInt 0 (n - 1) r < n := by
  unfold randomInt
  have : n - 1 - 0 + 1 = n := by omega
  rw [this]
  simpa using Nat.mod_lt r h

theorem bucketAt_mem {l : List Bucket} {i : ℕ} (h : i < l.length) :
    bucketAt l i ∈ l := by
  unfold bucketAt
  rw [List.getD_eq_getElem _ _ h]
  exact List.getElem_mem h

theorem bucketsOk_set {bs : ℕ} {l : List Bucket} {i : ℕ} {b : Bucket}
    (hok : BucketsOk bs l)
    (hb : b._size = bs ∧ b._elements.length ≤ bs) :
    BucketsOk bs (l.set i b) := by
  intro c hc
  rcases List.mem_or_eq_of_mem_set hc with h | h
  · exact hok c h
  · rw [h]
    exact hb

theorem bucketsOk_setSlot {bs : ℕ} {l : List Bucket} (i j : ℕ) (v : String)
    (hok : BucketsOk bs l) : BucketsOk bs (setSlot l i j v) := by
  by_cases hi : i < l.length
  · apply bucketsOk_set hok
    obtain ⟨h1, h2⟩ := hok _ (bucketAt_mem hi)
    refine ⟨h1, ?_⟩
    simpa [Bucket.set] using h2
  · unfold setSlot
    rw [List.set_eq_of_length_le (le_of_not_lt hi)]
    exact hok

theorem bucketsOk_set_add {bs : ℕ} {l : List Bucket} {i : ℕ}
    (hok : BucketsOk bs l) (hfree : (bucketAt l i).isFree = true)
    (v : String) : BucketsOk bs (l.set i ((bucketAt l i).add v)) := by
  have hi : i < l.length := lt_length_of_isFree hfree
  obtain ⟨h1, h2⟩ := hok _ (bucketAt_mem hi)
  apply bucketsOk_set hok
  constructor
  · rw [Bucket.size_add]
    exact h1
  · have hlt := Bucket.isFree_lt hfree
    have := Bucket.length_add_of_isFree (v := v) hfree
    simp only [Bucket.length] at hlt this
    omega

theorem bucketsOk_rollback {bs : ℕ} (logs : List (ℕ × ℕ × String)) :
    ∀ (l : List Bucket), BucketsOk bs l → BucketsOk bs (rollback l logs) := by
  induction logs with
  | nil =>
    intro l hok
    exact hok
  | cons e rest ih =>
    intro l hok
    obtain ⟨i, j, v⟩ := e
    rw [rollback]
    exact ih _ (bucketsOk_setSlot i j v hok)

theorem kickLoop_success_shape (hash : String → ℕ) (size : ℕ)
    (slots : ℕ → ℕ) (bs : ℕ) (fuel : ℕ) :
    ∀ (nbTry : ℕ) (filter : List Bucket) (fp : String) (idx : ℕ)
      (logs : List (ℕ × ℕ × String)) (f1 : List Bucket),
      kickLoop hash size slots fuel nbTry filter fp idx logs = .success f1 →
      BucketsOk bs filter →
      BucketsOk bs f1 ∧ f1.length = filter.length := by
  induction fuel with
  | zero =>
    intro nbTry filter fp idx logs f1 h _
    rw [kickLoop] at h
    cases h
  | succ n ih =>
    intro nbTry filter fp idx logs f1 h hok
    rw [kickLoop] at h
    split at h
    · rename_i hfree
      cases h
      constructor
      · exact bucketsOk_set_add (bucketsOk_setSlot _ _ _ hok) hfree _
      · rw [List.length_set, length_setSlot]
    · have := ih (nbTry + 1) _ _ _ _ _ h (bucketsOk_setSlot _ _ _ hok)
      rw [length_setSlot] at this
      exact this

theorem pairMem_setSlot_or (filter : List Bucket) (fpx : String)
    (i1 i2 idx j : ℕ) (fp : String) (hpm : pairMem filter fpx i1 i2) :
    pairMem (setSlot filter idx j fp) fpx i1 i2 ∨
      ((bucketAt filter idx).atIndex j = fpx ∧ (idx = i1 ∨ idx = i2)) := by
  by_cases hrange : idx < filter.length
  · have hset : ∀ c, c ≠ idx →
        bucketAt (setSlot filter idx j fp) c = bucketAt filter c := by
      intro c hc
      unfold setSlot
      exact bucketAt_set_ne (fun he => hc he.symm) _
    have hsetd : bucketAt (setSlot filter idx j fp) idx =
        (bucketAt filter idx).set j fp := bucketAt_set_self hrange _
    cases hpm with
    | inl h1 =>
      by_cases hc : i1 = idx
      · rcases mem_set_or j fp "" (hc ▸ h1) with hl | hr
        · left
          left
          rw [hc, hsetd]
          simpa [Bucket.set] using hl
        · right
          exact ⟨hr, Or.inl hc.symm⟩
      · left
        left
        rw [hset i1 hc]
        exact h1
    | inr h2 =>
      by_cases hc : i2 = idx
      · rcases mem_set_or j fp "" (hc ▸ h2) with hl | hr
        · left
          right
          rw [hc, hsetd]
          simpa [Bucket.set] using hl
        · right
          exact ⟨hr, Or.inr hc.symm⟩
      · left
        right
        rw [hset i2 hc]
        exact h2
  · left
    unfold setSlot
    rw [List.set_eq_of_length_le (le_of_not_lt hrange)]
    exact hpm

theorem pairMem_set_add (filter : List Bucket) (fpx : String)
    (i1 i2 idx : ℕ) (v : String)
    (hfree : (bucketAt filter idx).isFree = true)
    (hQ : pairMem filter fpx i1 i2 ∨ (v = fpx ∧ (idx = i1 ∨ idx = i2))) :
    pairMem (filter.set idx ((bucketAt filter idx).add v)) fpx i1 i2 := by
  have hrange : idx < filter.length := lt_length_of_isFree hfree
  have hsetd : bucketAt (filter.set idx ((bucketAt filter idx).add v)) idx =
      (bucketAt filter idx).add v := bucketAt_set_self hrange _
  have hset : ∀ c, c ≠ idx →
      bucketAt (filter.set idx ((bucketAt filter idx).add v)) c =
        bucketAt filter c := by
    intro c hc
    exact bucketAt_set_ne (fun he => hc he.symm) _
  cases hQ with
  | inl hpm =>
    cases hpm with
    | inl h1 =>
      by_cases hc : i1 = idx
      · left
        rw [hc, hsetd]
        exact Bucket.mem_add (hc ▸ h1)
      · left
        rw [hset i1 hc]
        exact h1
    | inr h2 =>
      by_cases hc : i2 = idx
      · right
        rw [hc, hsetd]
        exact Bucket.mem_add (hc ▸ h2)
      · right
        rw [hset i2 hc]
        exact h2
  | inr hv =>
    obtain ⟨hv, hi⟩ := hv
    subst hv
    cases hi with
    | inl h =>
      left
      rw [← h, hsetd]
      exact Bucket.mem_add_self hfree
    | inr h =>
      right
      rw [← h, hsetd]
      exact Bucket.mem_add_self hfree

theorem kickLoop_success_pairMem (hash : String → ℕ) (size : ℕ)
    (slots : ℕ → ℕ) (bs : ℕ) (fpx : String) (i1 i2 : ℕ) (hbs : 0 < bs)
    (hcl : ∀ c, c = i1 ∨ c = i2 →
      ((c ^^^ hash fpx) % 2 ^ 32 % size = i1 ∨
        (c ^^^ hash fpx) % 2 ^ 32 % size = i2))
    (fuel : ℕ) :
    ∀ (nbTry : ℕ) (filter : List Bucket) (fp : String) (idx : ℕ)
      (logs : List (ℕ × ℕ × String)) (f1 : List Bucket),
      kickLoop hash size slots fuel nbTry filter fp idx logs = .success f1 →
      filter.length = size → BucketsOk bs filter → idx < size →
      (bucketAt filter idx).isFree = false →
      (pairMem filter fpx i1 i2 ∨ (fp = fpx ∧ (idx = i1 ∨ idx = i2))) →
      pairMem f1 fpx i1 i2 := by
  induction fuel with
  | zero =>
    intro nbTry filter fp idx logs f1 h _ _ _ _ _
    rw [kickLoop] at h
    cases h
  | succ n ih =>
    intro nbTry filter fp idx logs f1 h hlen hok hidx hnf hQ
    have hsz : 0 < size := by omega
    have hblen : 0 < (bucketAt filter idx).length := by
      obtain ⟨h1, _⟩ := hok _ (bucketAt_mem (by omega : idx < filter.length))
      have := Bucket.isFree_not_lt hnf
      omega
    rw [kickLoop] at h
    set j := randomInt 0 ((bucketAt filter idx).length - 1) (slots nbTry)
      with hj
    set tmp := (bucketAt filter idx).atIndex j with htmp
    set filter1 := setSlot filter idx j fp with hfilter1
    set idx1 := (idx ^^^ hash tmp) % 2 ^ 32 % size with hidx1
    have hjlt : j < (bucketAt filter idx).length := by
      rw [hj]
      exact randomInt_lt hblen
    have hQ1 : pairMem filter1 fpx i1 i2 ∨
        (tmp = fpx ∧ (idx1 = i1 ∨ idx1 = i2)) := by
      cases hQ with
      | inl hpm =>
        rcases pairMem_setSlot_or filter fpx i1 i2 idx j fp hpm with
          hl | hr
        · left
          rw [hfilter1]
          exact hl
        · obtain ⟨heq, hin⟩ := hr
          right
          have htf : tmp = fpx := by
            rw [htmp]
            exact heq
          refine ⟨htf, ?_⟩
          rw [hidx1, htf]
          exact hcl idx hin
      | inr hr =>
        obtain ⟨hfp, hin⟩ := hr
        left
        subst hfp
        have hsetd : bucketAt filter1 idx = (bucketAt filter idx).set j fp := by
          rw [hfilter1]
          exact bucketAt_set_self (by omega : idx < filter.length) _
        have hmem : fp ∈ (bucketAt filter1 idx)._elements := by
          rw [hsetd]
          have : fp ∈ (bucketAt filter idx)._elements.set j fp :=
            mem_set_self (by simpa [Bucket.length] using hjlt) fp
          simpa [Bucket.set] using this
        cases hin with
        | inl h1 =>
          left
          rw [← h1]
          exact hmem
        | inr h2 =>
          right
          rw [← h2]
          exact hmem
    split at h
    · rename_i hfree
      cases h
      exact pairMem_set_add filter1 fpx i1 i2 idx1 tmp hfree hQ1
    · rename_i hnfree
      have hnfree' : (bucketAt filter1 idx1).isFree = false := by
        revert hnfree
        cases (bucketAt filter1 idx1).isFree <;> simp
      refine ih (nbTry + 1) filter1 tmp idx1 _ f1 h ?_ ?_ ?_ hnfree' hQ1
      · rw [hfilter1, length_setSlot]
        exact hlen
      · rw [hfilter1]
        exact bucketsOk_setSlot _ _ _ hok
      · rw [hidx1]
        exact Nat.mod_lt _ hsz

theorem locations_indices_lt {hash : String → ℕ} {f : CuckooFilter}
    {element : String} {loc : CuckooLocations}
    (hl : f._locations hash element = Except.ok loc) (hsz : 0 < f._size) :
    loc.firstIndex < f._size ∧ loc.secondIndex < f._size := by
  unfold CuckooFilter._locations at hl
  dsimp only at hl
  split at hl
  · cases hl
  · injection hl with h
    subst h
    exact ⟨Nat.mod_lt _ hsz, Nat.mod_lt _ hsz⟩

theorem add_preserves_pairMem (hash : String → ℕ) (f : CuckooFilter)
    (y : String) (coin : Bool) (slots : ℕ → ℕ) (throwOnFull : Bool)
    (fpx : String) (i1 i2 : ℕ)
    (hlenf : f._filter.length = f._size) (hsz : 0 < f._size)
    (hbs : 0 < f._bucketSize) (hok : BucketsOk f._bucketSize f._filter)
    (hcl : ∀ c, c = i1 ∨ c = i2 →
      ((c ^^^ hash fpx) % 2 ^ 32 % f._size = i1 ∨
        (c ^^^ hash fpx) % 2 ^ 32 % f._size = i2))
    (hpm : pairMem f._filter fpx i1 i2) :
    pairMem
      (CuckooFilter.add hash f y coin slots throwOnFull false).2._filter
      fpx i1 i2 := by
  unfold CuckooFilter.add
  cases hl : f._locations hash y with
  | error e => exact hpm
  | ok loc =>
    by_cases h1 : (bucketAt f._filter loc.firstIndex).isFree = true
    · simp only [h1, if_true]
      exact pairMem_set_add f._filter fpx i1 i2 loc.firstIndex _ h1
        (Or.inl hpm)
    · by_cases h2 : (bucketAt f._filter loc.secondIndex).isFree = true
      · simp only [h1, h2, if_true, Bool.false_eq_true, if_false]
        exact pairMem_set_add f._filter fpx i1 i2 loc.secondIndex _ h2
          (Or.inl hpm)
      · simp only [h1, h2, Bool.false_eq_true, if_false]
        cases hk : kickLoop hash f._size slots f._maxKicks 0 f._filter
            loc.fingerprint
            (if coin then loc.firstIndex else loc.secondIndex) [] with
        | success f1 =>
          refine kickLoop_success_pairMem hash f._size slots f._bucketSize
            fpx i1 i2 hbs hcl f._maxKicks 0 f._filter loc.fingerprint _ []
            f1 hk hlenf hok ?_ ?_ (Or.inl hpm)
          · cases coin with
            | true =>
              simp only [if_true]
              exact (locations_indices_lt hl hsz).1
            | false =>
              simp only [Bool.false_eq_true, if_false]
              exact (locations_indices_lt hl hsz).2
          · cases coin with
            | true =>
              simp only [if_true]
              revert h1
              cases (bucketAt f._filter loc.firstIndex).isFree <;> simp
            | false =>
              simp only [Bool.false_eq_true, if_false]
              revert h2
              cases (bucketAt f._filter loc.secondIndex).isFree <;> simp
        | failure f1 lg =>
          have hr : rollback f1 lg = f._filter :=
            kickLoop_failure_rollback hash f._size slots f._maxKicks 0
              f._filter loc.fingerprint _ [] f1 lg hk
          by_cases ht : throwOnFull = true <;> simp only [ht, if_true,
            Bool.false_eq_true, if_false] <;> simpa [hr] using hpm

theorem add_frame (hash : String → ℕ) (f : CuckooFilter) (e : String)
    (coin : Bool) (slots : ℕ → ℕ) (t d : Bool) :
    (CuckooFilter.add hash f e coin slots t d).2._size = f._size ∧
    (CuckooFilter.add hash f e coin slots t d).2._bucketSize =
      f._bucketSize ∧
    (CuckooFilter.add hash f e coin slots t d).2._fingerprintLength =
      f._fingerprintLength ∧
    (CuckooFilter.add hash f e coin slots t d).2._maxKicks = f._maxKicks := by
  unfold CuckooFilter.add
  cases f._locations hash e with
  | error e' => exact ⟨rfl, rfl, rfl, rfl⟩
  | ok loc =>
    by_cases h1 : (bucketAt f._filter loc.firstIndex).isFree = true
    · simp [h1]
    · by_cases h2 : (bucketAt f._filter loc.secondIndex).isFree = true
      · simp [h1, h2]
      · simp only [h1, h2, Bool.false_eq_true, if_false]
        cases kickLoop hash f._size slots f._maxKicks 0 f._filter
            loc.fingerprint
            (if coin then loc.firstIndex else loc.secondIndex) [] with
        | success f1 => exact ⟨rfl, rfl, rfl, rfl⟩
        | failure f1 lg =>
          by_cases ht : t = true <;> simp [ht]

theorem add_shape (hash : String → ℕ) (f : CuckooFilter) (e : String)
    (coin : Bool) (slots : ℕ → ℕ) (t : Bool)
    (hok : BucketsOk f._bucketSize f._filter) :
    BucketsOk f._bucketSize
      (CuckooFilter.add hash f e coin slots t false).2._filter ∧
    (CuckooFilter.add hash f e coin slots t false).2._filter.length =
      f._filter.length := by
  unfold CuckooFilter.add
  cases f._locations hash e with
  | error e' => exact ⟨hok, rfl⟩
  | ok loc =>
    by_cases h1 : (bucketAt f._filter loc.firstIndex).isFree = true
    · simp only [h1, if_true]
      exact ⟨bucketsOk_set_add hok h1 _, List.length_set ..⟩
    · by_cases h2 : (bucketAt f._filter loc.secondIndex).isFree = true
      · simp only [h1, h2, if_true, Bool.false_eq_true, if_false]
        exact ⟨bucketsOk_set_add hok h2 _, List.length_set ..⟩
      · simp only [h1, h2, Bool.false_eq_true, if_false]
        cases hk : kickLoop hash f._size slots f._maxKicks 0 f._filter
            loc.fingerprint
            (if coin then loc.firstIndex else loc.secondIndex) [] with
        | success f1 =>
          obtain ⟨ha, hb⟩ := kickLoop_success_shape hash f._size slots
            f._bucketSize f._maxKicks 0 f._filter loc.fingerprint _ [] f1
            hk hok
          exact ⟨ha, hb⟩
        | failure f1 lg =>
          have hr : rollback f1 lg = f._filter :=
            kickLoop_failure_rollback hash f._size slots f._maxKicks 0
              f._filter loc.fingerprint _ [] f1 lg hk
          by_cases ht : t = true <;> simp only [ht, if_true,
            Bool.false_eq_true, if_false] <;>
            exact ⟨by simpa [hr] using hok, by simp [hr]⟩

theorem pair_closure_pow2 (hash : String → ℕ) (h : ℕ) (fpx : String)
    (k : ℕ) (hk : k ≤ 32) :
    ∀ c, c = h % 2 ^ 32 % 2 ^ k ∨
        c = (h ^^^ hash fpx) % 2 ^ 32 % 2 ^ k →
      ((c ^^^ hash fpx) % 2 ^ 32 % 2 ^ k = h % 2 ^ 32 % 2 ^ k ∨
        (c ^^^ hash fpx) % 2 ^ 32 % 2 ^ k =
          (h ^^^ hash fpx) % 2 ^ 32 % 2 ^ k) := by
  have hdvd : (2 : ℕ) ^ k ∣ 2 ^ 32 := pow_dvd_pow 2 hk
  have hmm : ∀ a : ℕ, a % 2 ^ 32 % 2 ^ k = a % 2 ^ k := fun a =>
    Nat.mod_mod_of_dvd a hdvd
  have hpos : 0 < (2 : ℕ) ^ k := Nat.pos_pow_of_pos _ (by omega)
  intro c hc
  cases hc with
  | inl h1 =>
    right
    rw [hmm] at h1
    rw [hmm, hmm, xor_mod_two_pow, xor_mod_two_pow, h1,
      Nat.mod_mod_of_dvd h (dvd_refl _)]
  | inr h2 =>
    left
    rw [hmm] at h2
    rw [hmm, hmm, xor_mod_two_pow, h2, xor_mod_two_pow,
      Nat.mod_eq_of_lt (Nat.xor_lt_two_pow (Nat.mod_lt _ hpos)
        (Nat.mod_lt _ hpos)),
      Nat.xor_assoc, Nat.xor_self, Nat.xor_zero]

theorem has_true_of_pairMem (hash : String → ℕ) (g : CuckooFilter)
    (x : String) (hfl : g._fingerprintLength ≤ 64)
    (hpm : pairMem g._filter (bitString (hash x) g._fingerprintLength)
      (hash x % 2 ^ 32 % g._size)
      ((hash x ^^^ hash (bitString (hash x) g._fingerprintLength)) %
        2 ^ 32 % g._size)) :
    CuckooFilter.has hash g x = Except.ok true := by
  unfold CuckooFilter.has
  rw [locations_ok_of_le hfl]
  dsimp only
  cases hpm with
  | inl h1 =>
    have : (bucketAt g._filter
        (hash x % 2 ^ 32 % g._size)).has
        (bitString (hash x) g._fingerprintLength) = true :=
      List.elem_iff.mpr h1
    simp [Bucket.has] at this ⊢
    exact Or.inl this
  | inr h2 =>
    have : (bucketAt g._filter
        ((hash x ^^^ hash (bitString (hash x) g._fingerprintLength)) %
          2 ^ 32 % g._size)).has
        (bitString (hash x) g._fingerprintLength) = true :=
      List.elem_iff.mpr h2
    simp [Bucket.has] at this ⊢
    exact Or.inr this

theorem add_true_pairMem (hash : String → ℕ) (f : CuckooFilter)
    (x : String) (coin : Bool) (slots : ℕ → ℕ) (throwOnFull : Bool)
    (hlenf : f._filter.length = f._size) (hsz : 0 < f._size)
    (hbs : 0 < f._bucketSize) (hok : BucketsOk f._bucketSize f._filter)
    (hfl : f._fingerprintLength ≤ 64)
    (hcl : ∀ c, c = hash x % 2 ^ 32 % f._size ∨
        c = (hash x ^^^ hash (bitString (hash x) f._fingerprintLength)) %
          2 ^ 32 % f._size →
      ((c ^^^ hash (bitString (hash x) f._fingerprintLength)) % 2 ^ 32 %
          f._size = hash x % 2 ^ 32 % f._size ∨
        (c ^^^ hash (bitString (hash x) f._fingerprintLength)) % 2 ^ 32 %
          f._size =
          (hash x ^^^ hash (bitString (hash x) f._fingerprintLength)) %
            2 ^ 32 % f._size))
    (hres : (CuckooFilter.add hash f x coin slots throwOnFull false).1 =
      Except.ok true) :
    pairMem
      (CuckooFilter.add hash f x coin slots throwOnFull false).2._filter
      (bitString (hash x) f._fingerprintLength)
      (hash x % 2 ^ 32 % f._size)
      ((hash x ^^^ hash (bitString (hash x) f._fingerprintLength)) %
        2 ^ 32 % f._size) := by
  revert hres
  unfold CuckooFilter.add
  rw [locations_ok_of_le hfl]
  dsimp only
  by_cases h1 : (bucketAt f._filter (hash x % 2 ^ 32 % f._size)).isFree =
      true
  · simp only [h1, if_true]
    intro _
    exact pairMem_set_add f._filter _ _ _ _ _ h1 (Or.inr ⟨rfl, Or.inl rfl⟩)
  · by_cases h2 : (bucketAt f._filter
        ((hash x ^^^ hash (bitString (hash x) f._fingerprintLength)) %
          2 ^ 32 % f._size)).isFree = true
    · simp only [h1, h2, if_true, Bool.false_eq_true, if_false]
      intro _
      exact pairMem_set_add f._filter _ _ _ _ _ h2
        (Or.inr ⟨rfl, Or.inr rfl⟩)
    · simp only [h1, h2, Bool.false_eq_true, if_false]
      cases hk : kickLoop hash f._size slots f._maxKicks 0 f._filter
          (bitString (hash x) f._fingerprintLength)
          (if coin then hash x % 2 ^ 32 % f._size
            else (hash x ^^^
              hash (bitString (hash x) f._fingerprintLength)) % 2 ^ 32 %
              f._size) [] with
      | success f1 =>
        intro _
        refine kickLoop_success_pairMem hash f._size slots f._bucketSize
          _ _ _ hbs hcl f._maxKicks 0 f._filter _ _ [] f1 hk hlenf hok
          ?_ ?_ (Or.inr ⟨rfl, ?_⟩)
        · cases coin with
          | true =>
            simp only [if_true]
            exact Nat.mod_lt _ hsz
          | false =>
            simp only [Bool.false_eq_true, if_false]
            exact Nat.mod_lt _ hsz
        · cases coin with
          | true =>
            simp only [if_true]
            revert h1
            cases (bucketAt f._filter
              (hash x % 2 ^ 32 % f._size)).isFree <;> simp
          | false =>
            simp only [Bool.false_eq_true, if_false]
            revert h2
            cases (bucketAt f._filter
              ((hash x ^^^
                hash (bitString (hash x) f._fingerprintLength)) % 2 ^ 32 %
                f._size)).isFree <;> simp
        · cases coin with
          | true => exact Or.inl (by simp)
          | false => exact Or.inr (by simp)
      | failure f1 lg =>
        by_cases ht : throwOnFull = true <;>
          simp only [ht, if_true, Bool.false_eq_true, if_false] <;>
          intro hres <;> cases hres

theorem applyAdds_preserves (hash : String → ℕ) (sz bs fl : ℕ)
    (fpx : String) (i1 i2 : ℕ) (hsz : 0 < sz) (hbs : 0 < bs)
    (hcl : ∀ c, c = i1 ∨ c = i2 →
      ((c ^^^ hash fpx) % 2 ^ 32 % sz = i1 ∨
        (c ^^^ hash fpx) % 2 ^ 32 % sz = i2))
    (ops : List AddCall) :
    ∀ (g : CuckooFilter), g._size = sz → g._bucketSize = bs →
      g._fingerprintLength = fl → g._filter.length = sz →
      BucketsOk bs g._filter → pairMem g._filter fpx i1 i2 →
      (CuckooFilter.applyAdds hash g ops)._size = sz ∧
        (CuckooFilter.applyAdds hash g ops)._fingerprintLength = fl ∧
        pairMem (CuckooFilter.applyAdds hash g ops)._filter fpx i1 i2 := by
  induction ops with
  | nil =>
    intro g h1 h2 h3 _ _ h6
    exact ⟨h1, h3, h6⟩
  | cons c rest ih =>
    intro g h1 h2 h3 h4 h5 h6
    rw [CuckooFilter.applyAdds]
    obtain ⟨hf1, hf2, hf3, _⟩ :=
      add_frame hash g c.element c.coin c.slots c.throwOnFull false
    have h5' : BucketsOk g._bucketSize g._filter := by
      rw [h2]
      exact h5
    obtain ⟨hsOk, hsLen⟩ :=
      add_shape hash g c.element c.coin c.slots c.throwOnFull h5'
    rw [h2] at hsOk
    apply ih
    · rw [hf1]
      exact h1
    · rw [hf2]
      exact h2
    · rw [hf3]
      exact h3
    · rw [hsLen]
      exact h4
    · exact hsOk
    · apply add_preserves_pairMem hash g c.element c.coin c.slots
        c.throwOnFull fpx i1 i2
      · rw [h4, h1]
      · rw [h1]
        exact hsz
      · rw [h2]
        exact hbs
      · exact h5'
      · rw [h1]
        exact hcl
      · exact h6

/-- Counterexample to claim C2 as stated: on a two-bucket filter with
one-bit fingerprints, `add("x")` succeeds, `"x"` is never passed to
`remove`, yet a single other operation in between — `remove("y")` for a
different element whose fingerprint and first bucket collide with
`"x"`'s — deletes `"x"`'s stored fingerprint, and `has("x")` then
returns `false`. -/
theorem cuckoo_no_false_negative_counterexample :
    (CuckooFilter.add
      (fun s => if s = "y" then 2 else if s = "0" then 1 else 0)
      ⟨[⟨[], 1⟩, ⟨[], 1⟩], 2, 1, 1, 0, 500, 0⟩ "x" true (fun _ => 0)
      false false).1 = Except.ok true ∧
    ("x" : String) ≠ "y" ∧
    CuckooFilter.has
      (fun s => if s = "y" then 2 else if s = "0" then 1 else 0)
      (CuckooFilter.remove
        (fun s => if s = "y" then 2 else if s = "0" then 1 else 0)
        (CuckooFilter.add
          (fun s => if s = "y" then 2 else if s = "0" then 1 else 0)
          ⟨[⟨[], 1⟩, ⟨[], 1⟩], 2, 1, 1, 0, 500, 0⟩ "x" true (fun _ => 0)
          false false).2 "y").2 "x" = Except.ok false := by
  refine ⟨by decide, by decide, by decide⟩

/-- Claim C2 (amended): for every well-formed cuckoo filter (power-of-two
size `2^k`, `k ≤ 32`, fingerprint fitting the 64-character hash string)
that is never reseeded: if an `add(x)` call with `destructive = false`
returns `true`, then after any further sequence of `add` calls with
`destructive = false` (arbitrary elements, PRNG outcomes and
`throwOnFull` flags — no `remove` calls and no destructive adds),
`has(x)` returns `true`. The original claim fails for removes of
colliding elements and for failed destructive adds, which can evict
`x`'s fingerprint. -/
theorem cuckoo_no_false_negative_amended (hash : String → ℕ)
    (f : CuckooFilter) (x : String) (coin : Bool) (slots : ℕ → ℕ)
    (throwOnFull : Bool) (k : ℕ) (hk : k ≤ 32) (hsize : f._size = 2 ^ k)
    (hlenf : f._filter.length = f._size) (hbs : 0 < f._bucketSize)
    (hok : BucketsOk f._bucketSize f._filter)
    (hfl : f._fingerprintLength ≤ 64)
    (hadd : (CuckooFilter.add hash f x coin slots throwOnFull false).1 =
      Except.ok true) (ops : List AddCall) :
    CuckooFilter.has hash
      (CuckooFilter.applyAdds hash
        (CuckooFilter.add hash f x coin slots throwOnFull false).2 ops) x =
      Except.ok true := by
  have hsz : 0 < f._size := by
    rw [hsize]
    exact Nat.pos_pow_of_pos _ (by omega)
  have hcl : ∀ c, c = hash x % 2 ^ 32 % f._size ∨
      c = (hash x ^^^ hash (bitString (hash x) f._fingerprintLength)) %
        2 ^ 32 % f._size →
      ((c ^^^ hash (bitString (hash x) f._fingerprintLength)) % 2 ^ 32 %
          f._size = hash x % 2 ^ 32 % f._size ∨
        (c ^^^ hash (bitString (hash x) f._fingerprintLength)) % 2 ^ 32 %
          f._size =
          (hash x ^^^ hash (bitString (hash x) f._fingerprintLength)) %
            2 ^ 32 % f._size) := by
    rw [hsize]
    exact pair_closure_pow2 hash (hash x)
      (bitString (hash x) f._fingerprintLength) k hk
  obtain ⟨hf1, hf2, hf3, _⟩ :=
    add_frame hash f x coin slots throwOnFull false
  obtain ⟨hsOk, hsLen⟩ := add_shape hash f x coin slots throwOnFull hok
  have hpm1 := add_true_pairMem hash f x coin slots throwOnFull hlenf hsz
    hbs hok hfl hcl hadd
  obtain ⟨hg1, hg2, hg3⟩ := applyAdds_preserves hash f._size f._bucketSize
    f._fingerprintLength (bitString (hash x) f._fingerprintLength)
    (hash x % 2 ^ 32 % f._size)
    ((hash x ^^^ hash (bitString (hash x) f._fingerprintLength)) % 2 ^ 32 %
      f._size) hsz hbs hcl ops
    (CuckooFilter.add hash f x coin slots throwOnFull false).2 hf1 hf2 hf3
    (by rw [hsLen, hlenf]) hsOk hpm1
  apply has_true_of_pairMem
  · rw [hg2]
    exact hfl
  · rw [hg1, hg2]
    exact hg3

/-- Witness for the amended C2 at a concrete input: after `add("x")`
succeeds and a further non-destructive `add("z")` is performed (whose
eviction loop fails and rolls back), `has("x")` still returns `true`. -/
theorem cuckoo_no_false_negative_amended_witness :
    CuckooFilter.has (fun _ => 0)
      (CuckooFilter.applyAdds (fun _ => 0)
        (CuckooFilter.add (fun _ => 0)
          ⟨[⟨[], 1⟩, ⟨[], 1⟩], 2, 1, 1, 0, 500, 0⟩ "x" true (fun _ => 0)
          false false).2
        [⟨"z", true, fun _ => 0, false⟩]) "x" = Except.ok true :=
  cuckoo_no_false_negative_amended (fun _ => 0)
    ⟨[⟨[], 1⟩, ⟨[], 1⟩], 2, 1, 1, 0, 500, 0⟩ "x" true (fun _ => 0) false 1
    (by decide) (by decide) (by decide) (by decide) (by decide) (by decide)
    (by decide) [⟨"z", true, fun _ => 0, false⟩]
